import Mathlib

/-!
# Verification of the attribution chain pipeline

Shallow embedding of `src/attribution/src/python/functions.py` and
`src/attribution/src/python/attribution.py` (the chain-construction and
channel-statistics pipeline), together with proofs of the specified
properties.

Modelling conventions:
* A pandas DataFrame is a `List` of records (structures), one per row.
* Calendar dates are `Date` records `(y, m, d)`; python's `date` subtraction
  `(a - b).days` is the difference of proleptic-Gregorian ordinals.
* Timestamps (`conversion_timestamp`, `first_event_timestamp`,
  `event_timestamp`) are `Int` instants; the derived `.date()` columns are
  carried as separate `Date` fields of the record, exactly as `attribution.py`
  materialises `last_event_date` from `last_event_timestamp`.
* String ids (`customer_id`/`cookie_id`, `session_id`) are `Nat`;
  `conversion_id = session_id + '.' + YYYYMMDD` is modelled by the pair
  `(session_id, last_event_date)`, which the fixed-width date suffix makes
  injective.
* Monetary values are `Int`.
* A python `assert` makes the function return `Except.error msg` instead of
  raising `AssertionError` (the run aborts either way).
* `pandas.groupby(k)` enumerates groups in ascending key order, each group
  keeping the original row order: modelled by sorting/along the pre-sorted
  list and chunking consecutive runs of equal keys.
-/

/-! ## Definitions: the embedded data model and pipeline -/

/-- A calendar date, as python's `datetime.date`. -/
structure Date where
  y : Nat
  m : Nat
  d : Nat
deriving DecidableEq, Repr

/-- Gregorian leap-year test. -/
def isLeap (y : Nat) : Bool :=
  (y % 4 == 0 && y % 100 != 0) || (y % 400 == 0)

/-- Number of days in month `m` of year `y`. -/
def daysInMonth (y m : Nat) : Nat :=
  if m = 2 then (if isLeap y then 29 else 28)
  else if m = 4 ∨ m = 6 ∨ m = 9 ∨ m = 11 then 30
  else 31

/-- Days in year `y` strictly before month `m`. -/
def daysBeforeMonth (y m : Nat) : Nat :=
  (List.range (m - 1)).foldl (fun acc i => acc + daysInMonth y (i + 1)) 0

/-- Proleptic Gregorian ordinal of a date (as python `date.toordinal`);
`0001-01-01` has ordinal 1.  Python date subtraction `(a - b).days` is
`a.ord - b.ord`. -/
def Date.ord (a : Date) : Int :=
  365 * ((a.y : Int) - 1) + ((a.y : Int) - 1) / 4 - ((a.y : Int) - 1) / 100
    + ((a.y : Int) - 1) / 400 + (daysBeforeMonth a.y a.m : Int) + (a.d : Int)

/-- `(a - b).days` for python dates. -/
def Date.daysBetween (a b : Date) : Int := a.ord - b.ord

/-- Calendar month shift with end-of-month clamping, as performed by
`dateutil.relativedelta` when a months delta is added to a date. -/
def addMonths (dt : Date) (n : Int) : Date :=
  let t : Int := (dt.y : Int) * 12 + (dt.m : Int) - 1 + n
  let y := (t.fdiv 12).toNat
  let m := (t.fmod 12).toNat + 1
  ⟨y, m, min dt.d (daysInMonth y m)⟩

/-- The month-adjustment loop of `relativedelta.__init__(dt1, dt2)`:
starting from the raw month difference, move `dtm = dt2 + months` towards
`dt1` until it no longer overshoots.  Fuel-bounded (the real loop performs
at most a couple of iterations). -/
def rdAdjust (dt1 dt2 : Date) : Nat → Int → Int
  | 0, months => months
  | fuel + 1, months =>
    let dtm := addMonths dt2 months
    if dt1.ord < dt2.ord then
      if dtm.ord < dt1.ord then rdAdjust dt1 dt2 fuel (months + 1) else months
    else
      if dt1.ord < dtm.ord then rdAdjust dt1 dt2 fuel (months - 1) else months

/-- The `.days` attribute of `dateutil.relativedelta(dt1, dt2)`: the residual
day count after whole calendar months (and years) have been removed.  This is
NOT the total number of days between the two dates. -/
def relativedeltaDays (dt1 dt2 : Date) : Int :=
  let months0 : Int := ((dt1.y : Int) - (dt2.y : Int)) * 12 + ((dt1.m : Int) - (dt2.m : Int))
  let months := rdAdjust dt1 dt2 10000 months0
  dt1.ord - (addMonths dt2 months).ord

/-- Insert into a sorted list, keeping the inserted element before any later
element it compares `le` to (stability of the overall sort). -/
def insertLe {α : Type} (le : α → α → Bool) (a : α) : List α → List α
  | [] => [a]
  | b :: bs => if le a b then a :: b :: bs else b :: insertLe le a bs

/-- Stable insertion sort by a boolean `le` relation; models
`DataFrame.sort_values` (row order among tied keys is irrelevant to every
property proved below, so stability vs. quicksort does not matter). -/
def sortByRel {α : Type} (le : α → α → Bool) : List α → List α
  | [] => []
  | a :: as => insertLe le a (sortByRel le as)

/-- Split a list into maximal runs of consecutive elements related by `p`;
models `groupby` over a key-sorted frame (groups are the maximal runs of
equal keys, in order). -/
def chunkBy {α : Type} (p : α → α → Bool) : List α → List (List α)
  | [] => []
  | [a] => [[a]]
  | a :: b :: rest =>
    match chunkBy p (b :: rest) with
    | [] => [[a]]
    | c :: cs => if p a b then (a :: c) :: cs else [a] :: c :: cs

/-- Marketing channel label (`channel_group`). -/
abbrev Channel := String

/-- One row of the input Event Table (`attribution_events`), after
`attribution.py` has materialised `last_event_date` from
`last_event_timestamp`.  `first_event_date` stands for
`first_event_timestamp.date()` and `last_event_date` for
`last_event_timestamp.date()`. -/
structure Event where
  customer_id : Nat
  session_id : Nat
  channel_group : Channel
  first_event_ts : Int
  first_event_date : Date
  event_ts : Int
  last_event_ts : Int
  last_event_date : Date
  f_purchased : Bool
  session_revenue : Int
deriving DecidableEq, Repr

/-- `conversion_id = session_id + '.' + last_event_date.strftime('%Y%m%d')`:
the fixed-width date suffix makes the pair a faithful model of the string. -/
abbrev ConvId := Nat × Date

/-- One conversion chain row, as produced by `chain_events_concatenation`
(and kept through `chain_merge`). -/
structure Chain where
  customer_id : Nat
  conversion_id : ConvId
  conversion_timestamp : Int
  chain : List Channel
  first_event : Date
  purchase_date : Date
  purchase_value : Int
deriving DecidableEq, Repr

/-- Placeholder row used only to give total definitions a value on the empty
group, which `groupby` never produces. -/
def dfltChain : Chain :=
  { customer_id := 0, conversion_id := (0, ⟨1, 1, 1⟩), conversion_timestamp := 0,
    chain := [], first_event := ⟨1, 1, 1⟩, purchase_date := ⟨1, 1, 1⟩,
    purchase_value := 0 }

/-- `MERGE_PURCH_DAYS_TH` (functions.py line 11). -/
def MERGE_PURCH_DAYS_TH : Int := 3

/-- `CHAIN_CONCAT_DAYS_TH` (functions.py line 12). -/
def CHAIN_CONCAT_DAYS_TH : Int := 10

/-- Sorted list of the distinct keys of a frame column — the order in which
`groupby` enumerates its groups. -/
def sortedKeys (l : List Nat) : List Nat :=
  sortByRel (fun a b => a ≤ b) l.dedup

/-- Close the open chain at converting event `e`: the emitted Chain row
(functions.py lines 154-160). -/
def closeChain (e : Event) (acc : List Channel) (fe : Date) : Chain :=
  { customer_id := e.customer_id,
    conversion_id := (e.session_id, e.last_event_date),
    conversion_timestamp := e.last_event_ts,
    chain := acc,
    first_event := fe,
    purchase_date := e.last_event_date,
    purchase_value := e.session_revenue }

/-- `current_session_id != next_session_id` (functions.py lines 142, 153):
true when the next event in order belongs to a different session, or there
is no next event (`next_session_id == 'FINISH'`). -/
def sessionBreak (e : Event) : List Event → Bool
  | [] => true
  | e2 :: _ => decide (e2.session_id ≠ e.session_id)

/-- The per-customer scan of `chain_events_concatenation` (functions.py lines
130-170): walk the customer's events in order, appending each channel to the
open chain; `fe?` is `none` exactly when `j == 0` (the open chain has no
recorded first event yet); an event closes the chain when its session
converted and the next event (if any) belongs to a different session. -/
def scanChains (acc : List Channel) (fe? : Option Date) : List Event → List Chain
  | [] => []
  | e :: rest =>
    let acc' := acc ++ [e.channel_group]
    let fe := fe?.getD e.first_event_date
    if e.f_purchased && sessionBreak e rest then
      closeChain e acc' fe :: scanChains [] none rest
    else scanChains acc' (some fe) rest

/-- The chain rows built by `chain_events_concatenation` before its
assertions: one `groupby('customer_id')` pass, each group scanned in input
order. -/
def buildChains (events : List Event) : List Chain :=
  ((sortedKeys (events.map (·.customer_id))).map
    (fun c => scanChains [] none (events.filter (·.customer_id == c)))).flatten

/-- The `session_id`s of the converting events of the input
(`events_df[events_df.f_purchased == 1].session_id`). -/
def convertingSessions (events : List Event) : List Nat :=
  (events.filter (·.f_purchased)).map (·.session_id)

/-- `chain_events_concatenation` (functions.py lines 108-176): build the
chains, then assert conservation — the number of chains equals the number of
distinct converting sessions and every chain has its own `conversion_id`
(`assert` lines 174-175; a failure aborts the run). -/
def chain_events_concatenation (events : List Event) : Except String (List Chain) :=
  let chains := buildChains events
  if (convertingSessions events).dedup.length = chains.length ∧
      chains.length = (chains.map (·.conversion_id)).dedup.length then
    .ok chains
  else
    .error "ERROR! Found conversions with multiple assigned chains"

/-- Sort key of `chain_merge`:
`sort_values(['customer_id', 'conversion_timestamp'], ascending=(True, True))`. -/
def mergeSortLe (a b : Chain) : Bool :=
  a.customer_id < b.customer_id ||
    (a.customer_id == b.customer_id && a.conversion_timestamp ≤ b.conversion_timestamp)

/-- The walk of `calculate_rank` (functions.py lines 195-204), after the
initial `current_date` has been primed: a row opens a new rank group when its
purchase date is more than `MERGE_PURCH_DAYS_TH` days after the previous
row's purchase date, and `current_date` is updated to the row's purchase
date either way. -/
def calcRanksAux (rank : Nat) (cur : Date) : List Chain → List (Chain × Nat)
  | [] => []
  | c :: rest =>
    let r := if c.purchase_date.daysBetween cur > MERGE_PURCH_DAYS_TH then rank + 1 else rank
    (c, r) :: calcRanksAux r c.purchase_date rest

/-- `calculate_rank` on one customer group: rank starts at 1 and
`current_date` at the group's first purchase date (so the first row always
gets rank 1). -/
def calcRanks : List Chain → List (Chain × Nat)
  | [] => []
  | c :: rest => calcRanksAux 1 c.purchase_date (c :: rest)

/-- The `groupby(['customer_id', 'rank']).agg(...)` reducer (functions.py
line 212): `conversion_id`/`conversion_timestamp` = `'last'`, `first_event` =
`'min'`, `purchase_date` = `'max'`, `purchase_value` = `'sum'`, `chain` =
`'sum'` (list concatenation in group row order). -/
def reduceRankGroup (g : List (Chain × Nat)) : Chain :=
  match g with
  | [] => dfltChain
  | x :: xs =>
    { customer_id := x.1.customer_id,
      conversion_id := ((xs.map (·.1)).getLastD x.1).conversion_id,
      conversion_timestamp := ((xs.map (·.1)).getLastD x.1).conversion_timestamp,
      first_event := xs.foldl
        (fun acc y => if y.1.first_event.ord < acc.ord then y.1.first_event else acc)
        x.1.first_event,
      purchase_date := xs.foldl
        (fun acc y => if acc.ord < y.1.purchase_date.ord then y.1.purchase_date else acc)
        x.1.purchase_date,
      purchase_value := x.1.purchase_value + (xs.map (·.1.purchase_value)).sum,
      chain := x.1.chain ++ (xs.map (·.1.chain)).flatten }

/-- Two ranked rows belong to the same merge group. -/
def rankEq (a b : Chain × Nat) : Bool := a.2 == b.2

/-- Two chain rows belong to the same customer group. -/
def custEq (a b : Chain) : Bool := a.customer_id == b.customer_id

/-- The merged frame produced by `chain_merge` before its assertion: sort by
(customer, conversion time), rank each customer group, and reduce every
(customer, rank) group. -/
def mergeCore (chains : List Chain) : List Chain :=
  ((chunkBy custEq (sortByRel mergeSortLe chains)).map
    (fun g => (chunkBy rankEq (calcRanks g)).map reduceRankGroup)).flatten

/-- `chain_merge` (functions.py lines 179-214), with its closing assertion
(line 213): every merged row keeps a distinct `conversion_id`, otherwise the
run aborts. -/
def chain_merge (chains : List Chain) : Except String (List Chain) :=
  let merged := mergeCore chains
  if merged.length = (merged.map (·.conversion_id)).dedup.length then .ok merged
  else .error "ERROR! Found conversions with multiple assigned chains"

/-- A chain row with the extra `concat_chain` column. -/
structure CChain where
  customer_id : Nat
  conversion_id : ConvId
  conversion_timestamp : Int
  chain : List Channel
  first_event : Date
  purchase_date : Date
  purchase_value : Int
  concat_chain : List Channel
deriving DecidableEq, Repr

/-- Sort key of `chain_concatenation`:
`sort_values(['customer_id', 'purchase_date'], ascending=(True, False))`. -/
def concatSortLe (a b : Chain) : Bool :=
  a.customer_id < b.customer_id ||
    (a.customer_id == b.customer_id && b.purchase_date.ord ≤ a.purchase_date.ord)

/-- `concatenate_events_within_range` (functions.py lines 232-244) on one
customer group: for each row, every other row of the group whose purchase
date is strictly earlier and at most `CHAIN_CONCAT_DAYS_TH` days away
prepends its raw chain onto the accumulated concatenated chain, scanning the
group in its (descending purchase date) order. -/
def concatGroup (g : List Chain) : List CChain :=
  g.enum.map (fun iRow =>
    let i := iRow.1
    let row := iRow.2
    let cc := g.enum.foldl
      (fun cur jInner =>
        if jInner.1 ≠ i ∧ row.purchase_date.ord > jInner.2.purchase_date.ord ∧
            row.purchase_date.daysBetween jInner.2.purchase_date ≤ CHAIN_CONCAT_DAYS_TH then
          jInner.2.chain ++ cur
        else cur)
      row.chain
    { customer_id := row.customer_id, conversion_id := row.conversion_id,
      conversion_timestamp := row.conversion_timestamp, chain := row.chain,
      first_event := row.first_event, purchase_date := row.purchase_date,
      purchase_value := row.purchase_value, concat_chain := cc })

/-- The concatenated frame produced by `chain_concatenation` before its
assertion. -/
def concatCore (chains : List Chain) : List CChain :=
  ((chunkBy custEq (sortByRel concatSortLe chains)).map concatGroup).flatten

/-- `chain_concatenation` (functions.py lines 217-251), with its closing
assertion (line 250): every row keeps a distinct `conversion_id`, otherwise
the run aborts. -/
def chain_concatenation (chains : List Chain) : Except String (List CChain) :=
  let out := concatCore chains
  if out.length = (out.map (·.conversion_id)).dedup.length then .ok out
  else .error "ERROR! Found conversions with multiple assigned chains"

/-- Sort key of the event sort in `main` (attribution.py line 73):
`sort_values(by=['cookie_id', 'first_event_timestamp', 'event_timestamp'])`
(the `cookie_id` column is the customer identifier). -/
def eventSortLe (a b : Event) : Bool :=
  a.customer_id < b.customer_id ||
    (a.customer_id == b.customer_id &&
      (a.first_event_ts < b.first_event_ts ||
        (a.first_event_ts == b.first_event_ts && a.event_ts ≤ b.event_ts)))

/-- One row of the persisted chain set, with the derived columns
`chain_len` and `chain_duration` (attribution.py lines 102-103). -/
structure FinalChain where
  customer_id : Nat
  conversion_id : ConvId
  conversion_timestamp : Int
  chain : List Channel
  first_event : Date
  purchase_date : Date
  purchase_value : Int
  chain_len : Nat
  chain_duration : Int
deriving DecidableEq, Repr

/-- The derived columns of attribution.py lines 102-103:
`chain_len = len(chain)` and
`chain_duration = relativedelta(purchase_date, first_event).days`. -/
def mkFinal (c : Chain) : FinalChain :=
  { customer_id := c.customer_id, conversion_id := c.conversion_id,
    conversion_timestamp := c.conversion_timestamp, chain := c.chain,
    first_event := c.first_event, purchase_date := c.purchase_date,
    purchase_value := c.purchase_value,
    chain_len := c.chain.length,
    chain_duration := relativedeltaDays c.purchase_date c.first_event }

/-- `drop(['chain']).rename({'concat_chain': 'chain'})`
(attribution.py lines 96-97). -/
def renameConcat (c : CChain) : Chain :=
  { customer_id := c.customer_id, conversion_id := c.conversion_id,
    conversion_timestamp := c.conversion_timestamp, chain := c.concat_chain,
    first_event := c.first_event, purchase_date := c.purchase_date,
    purchase_value := c.purchase_value }

/-- The chain-preprocessing portion of `main` (attribution.py lines 73-103):
sort the events, build the chains, merge them, and — when `concat_chains` is
set — concatenate the *Builder's* chains (`chain_concatenation(chains_df)`,
line 93) and keep the concatenated column as the chain; otherwise keep the
merged chains.  Finally add the derived `chain_len` and `chain_duration`
columns.  Any failed assertion aborts the run (`except` block, line 145-147). -/
def mainPreprocess (concatChains : Bool) (events : List Event) :
    Except String (List FinalChain) := do
  let evs := sortByRel eventSortLe events
  let chains ← chain_events_concatenation evs
  let merged ← chain_merge chains
  let preproc ←
    if concatChains then
      (chain_concatenation chains).map (fun l => l.map renameConcat)
    else
      pure merged
  pure (preproc.map mkFinal)

/-- A float cell, as needed by the derived-ratio columns: a finite rational,
a signed infinity, or NaN (the value a pandas outer join leaves for a missing
aggregate and the result of `0/0`). -/
inductive FVal where
  | num (q : ℚ)
  | posInf
  | negInf
  | nan
deriving DecidableEq, Repr

/-- IEEE-754 division as performed on pandas float columns, restricted to
the shapes that occur here (finite / finite and NaN operands): a positive
finite numerator over zero gives `+inf`, a negative one `-inf`, `0/0` gives
NaN, and NaN propagates. -/
def FVal.div : FVal → FVal → FVal
  | .num a, .num b =>
    if b ≠ 0 then .num (a / b)
    else if 0 < a then .posInf
    else if a < 0 then .negInf
    else .nan
  | .nan, _ => .nan
  | _, .nan => .nan
  | .num _, .posInf => .num 0
  | .num _, .negInf => .num 0
  | .posInf, _ => .posInf
  | .negInf, _ => .negInf

/-- One exploded touchpoint row (`channels_df` after
`explode('chain').reset_index(drop=True).reset_index()`): `idx` is the fresh
`index` column, `channel` is the exploded `chain` column (a single label). -/
structure TPRow where
  idx : Nat
  conversion_id : ConvId
  channel : Channel
  chain_len : Nat
  purchase_value : Int
deriving DecidableEq, Repr

/-- Explode one chain row into touchpoint rows, with global indices starting
at `i`. -/
def chainRows (i : Nat) (c : FinalChain) : List TPRow :=
  (c.chain.enum).map (fun p =>
    { idx := i + p.1, conversion_id := c.conversion_id, channel := p.2,
      chain_len := c.chain_len, purchase_value := c.purchase_value })

/-- `explode('chain')` over the whole frame, assigning the fresh running
index.  (pandas keeps one NaN row for an empty list; chains are never empty
in this pipeline, so the empty chain simply contributes no rows here.) -/
def explodeRows : Nat → List FinalChain → List TPRow
  | _, [] => []
  | i, c :: cs => chainRows i c ++ explodeRows (i + c.chain.length) cs

/-- `order = groupby('conversion_id')['index'].rank('first')`: the 1-based
rank of the row's `index` among the rows sharing its `conversion_id` (all
indices are distinct, so the rank is one plus the number of smaller indices
in the group). -/
def orderVal (rows : List TPRow) (r : TPRow) : Nat :=
  1 + (rows.filter (fun r2 =>
        r2.conversion_id == r.conversion_id && r2.idx < r.idx)).length

/-- The labelled exploded frame of `compute_channel_stats`: every touchpoint
row paired with its `order` rank (the basis of the positional flag
columns). -/
def labeledRows (chains : List FinalChain) : List (TPRow × Nat) :=
  (explodeRows 0 chains).map (fun r => (r, orderVal (explodeRows 0 chains) r))

/-- `first_channel` (functions.py line 308): 1 iff `order == 1` and
`order < chain_len`. -/
def first_channel_flag (order chain_len : Nat) : Nat :=
  if order = 1 ∧ order < chain_len then 1 else 0

/-- `last_channel` (functions.py line 309): 1 iff `order == chain_len`. -/
def last_channel_flag (order chain_len : Nat) : Nat :=
  if order = chain_len then 1 else 0

/-- `assist_channel` (functions.py line 312): 1 iff `order < chain_len`. -/
def assist_channel_flag (order chain_len : Nat) : Nat :=
  if order < chain_len then 1 else 0

/-- `f_mono_touch` (functions.py line 313): 1 iff `chain_len == 1`. -/
def mono_touch_flag (chain_len : Nat) : Nat :=
  if chain_len = 1 then 1 else 0

/-- One output row of `compute_channel_stats`, after the two outer joins and
the ratio columns.  `Option` fields are NaN when the channel never assists. -/
structure ChannelStat where
  channel_name : Channel
  nr_appearances : Nat
  nr_chains : Nat
  nr_mono_touch_chains : Nat
  nr_first_touch_chains : Nat
  first_touch_chains_value : Int
  nr_last_touch_chains : Nat
  last_touch_chains_value : Int
  nr_assisted_chains : Option Nat
  assisted_chains_value : Option Int
  mean_chain_len : ℚ
  ratio_assisted_last : FVal
  ratio_first_last : FVal
deriving DecidableEq, Repr

/-- Lexicographic strict comparison of code-point sequences — the order in
which python compares strings (explicit so that the kernel can evaluate
it). -/
def chListLt : List Char → List Char → Bool
  | [], [] => false
  | [], _ :: _ => true
  | _ :: _, [] => false
  | a :: as, b :: bs =>
    if a.val.toNat < b.val.toNat then true
    else if b.val.toNat < a.val.toNat then false
    else chListLt as bs

/-- `a <= b` on strings, python/pandas order. -/
def strLe (a b : String) : Bool := !chListLt b.toList a.toList

/-- Sorted distinct channel labels — the key order of `groupby('chain')`. -/
def sortedChannelKeys (l : List Channel) : List Channel :=
  sortByRel strLe l.dedup

/-- Lift the possibly-missing assisted-chain count into a float cell. -/
def optToFVal : Option Nat → FVal
  | none => .nan
  | some n => .num n

/-- `compute_channel_stats` (functions.py lines 290-339): explode the chains,
rank each touchpoint within its conversion, label first/last/assist/mono
positions, aggregate per exploded channel label (`groupby('chain')`),
aggregate assists over deduplicated `(chain, conversion_id, purchase_value)`
triples, compute the mean chain length over deduplicated
`(conversion_id, chain, chain_len)` triples, outer-join the three aggregates
and add the two ratio columns. -/
def compute_channel_stats (chains : List FinalChain) : List ChannelStat :=
  let rows := explodeRows 0 chains
  let withOrder := labeledRows chains
  let assistTriples :=
    ((withOrder.filter (fun ro => assist_channel_flag ro.2 ro.1.chain_len = 1)).map
      (fun ro => (ro.1.channel, ro.1.conversion_id, ro.1.purchase_value))).dedup
  let lenTriples :=
    (withOrder.map (fun ro => (ro.1.conversion_id, ro.1.channel, ro.1.chain_len))).dedup
  (sortedChannelKeys (rows.map (·.channel))).map (fun k =>
    let g := withOrder.filter (fun ro => ro.1.channel == k)
    let nr_last := (g.map (fun ro => last_channel_flag ro.2 ro.1.chain_len)).sum
    let assistG := assistTriples.filter (fun t => t.1 == k)
    let nr_assisted : Option Nat :=
      if assistG.isEmpty then none
      else some (assistG.map (fun t => t.2.1)).dedup.length
    let lenG := lenTriples.filter (fun t => t.2.1 == k)
    { channel_name := k,
      nr_appearances := g.length,
      nr_chains := (g.map (fun ro => ro.1.conversion_id)).dedup.length,
      nr_mono_touch_chains := (g.map (fun ro => mono_touch_flag ro.1.chain_len)).sum,
      nr_first_touch_chains :=
        (g.map (fun ro => first_channel_flag ro.2 ro.1.chain_len)).sum,
      first_touch_chains_value :=
        (g.map (fun ro =>
          if first_channel_flag ro.2 ro.1.chain_len = 1 then ro.1.purchase_value else 0)).sum,
      nr_last_touch_chains := nr_last,
      last_touch_chains_value :=
        (g.map (fun ro =>
          if last_channel_flag ro.2 ro.1.chain_len = 1 then ro.1.purchase_value else 0)).sum,
      nr_assisted_chains := nr_assisted,
      assisted_chains_value :=
        if assistG.isEmpty then none else some (assistG.map (fun t => t.2.2)).sum,
      mean_chain_len :=
        ((lenG.map (fun t => (t.2.2 : ℚ))).sum) / (lenG.length : ℚ),
      ratio_assisted_last := FVal.div (optToFVal nr_assisted) (.num nr_last),
      ratio_first_last := FVal.div (.num ((g.map (fun ro => first_channel_flag ro.2 ro.1.chain_len)).sum)) (.num nr_last) })

/-- 2020-01-01. -/
def dJan1 : Date := ⟨2020, 1, 1⟩

/-- 2020-01-03 (two days after `dJan1`). -/
def dJan3 : Date := ⟨2020, 1, 3⟩

/-- Fixture chain: `[Search, Display]`, purchase 2020-01-01, value 100. -/
def chSearchDisplay : Chain :=
  { customer_id := 7
    conversion_id := (100, dJan1)
    conversion_timestamp := 10
    chain := ["Search", "Display"]
    first_event := dJan1
    purchase_date := dJan1
    purchase_value := 100 }

/-- Fixture chain: `[Email]`, purchase 2020-01-03, value 50, same customer. -/
def chEmail : Chain :=
  { customer_id := 7
    conversion_id := (200, dJan3)
    conversion_timestamp := 20
    chain := ["Email"]
    first_event := dJan3
    purchase_date := dJan3
    purchase_value := 50 }

/-- Fixture final chain row: the single path `[Search, Display]`. -/
def fcSearchDisplay : FinalChain :=
  { customer_id := 7
    conversion_id := (100, dJan1)
    conversion_timestamp := 10
    chain := ["Search", "Display"]
    first_event := dJan1
    purchase_date := dJan1
    purchase_value := 100
    chain_len := 2
    chain_duration := 0 }

/-- Modelled from the claim's words (for comparison only, NOT from the
source): the number of distinct full ordered paths appearing in a chain
set. -/
def distinctPathCount (chains : List FinalChain) : Nat :=
  ((chains.map (·.chain)).dedup).length

/-- Placeholder statistics row (never selected: used only as the default of
a total list lookup). -/
def junkStat : ChannelStat :=
  { channel_name := "", nr_appearances := 0, nr_chains := 0,
    nr_mono_touch_chains := 0, nr_first_touch_chains := 0,
    first_touch_chains_value := 0, nr_last_touch_chains := 0,
    last_touch_chains_value := 0, nr_assisted_chains := none,
    assisted_chains_value := none, mean_chain_len := 0,
    ratio_assisted_last := .nan, ratio_first_last := .nan }

/-- The statistics row of channel "Search" on the chain set
`[[Search, Display]]`: the second row of `compute_channel_stats`. -/
def searchStat : ChannelStat :=
  (compute_channel_stats [fcSearchDisplay]).getD 1 junkStat

/-- Mono-touchpoint fixture chain: `[Email]`, `chain_len = 1`. -/
def fcEmailMono : FinalChain :=
  { customer_id := 7
    conversion_id := (200, dJan3)
    conversion_timestamp := 20
    chain := ["Email"]
    first_event := dJan3
    purchase_date := dJan3
    purchase_value := 50
    chain_len := 1
    chain_duration := 0 }

/-- `[Email]` chain moved to purchase date 2020-01-04 (3 days after
`chSearchDisplay`). -/
def chEmailDay3 : Chain := { chEmail with purchase_date := ⟨2020, 1, 4⟩ }

/-- `[Email]` chain moved to purchase date 2020-01-05 (4 days after
`chSearchDisplay`). -/
def chEmailDay4 : Chain := { chEmail with purchase_date := ⟨2020, 1, 5⟩ }

/-- `[Email]` chain moved to purchase date 2020-01-11 (10 days after
`chSearchDisplay`). -/
def chEmailDay10 : Chain := { chEmail with purchase_date := ⟨2020, 1, 11⟩ }

/-- `[Email]` chain moved to purchase date 2020-01-12 (11 days after
`chSearchDisplay`). -/
def chEmailDay11 : Chain := { chEmail with purchase_date := ⟨2020, 1, 12⟩ }

/-- Fixture event: session 100 of customer 7, channel "Search", converting
session, purchase 2020-01-01, value 100. -/
def evSearch : Event :=
  { customer_id := 7
    session_id := 100
    channel_group := "Search"
    first_event_ts := 1
    first_event_date := dJan1
    event_ts := 1
    last_event_ts := 10
    last_event_date := dJan1
    f_purchased := true
    session_revenue := 100 }

/-- Fixture event: second touchpoint of session 100, channel "Display". -/
def evDisplay : Event := { evSearch with channel_group := "Display", event_ts := 2 }

/-- Fixture event: session 200 of customer 7, channel "Email", converting
session, purchase 2020-01-03, value 50. -/
def evEmail : Event :=
  { customer_id := 7
    session_id := 200
    channel_group := "Email"
    first_event_ts := 15
    first_event_date := dJan3
    event_ts := 15
    last_event_ts := 20
    last_event_date := dJan3
    f_purchased := true
    session_revenue := 50 }

/-- Event table with two converting sessions of one customer, purchase dates
two days apart (inside the merge window). -/
def exC2Events : List Event := [evSearch, evDisplay, evEmail]

/-- Modelled from claim C2's words (for comparison only, NOT from the
source): the final chain set obtained by applying Builder, then Merger, then
Concatenator in sequence,
`chain_concatenation(chain_merge(chain_events_concatenation(events)))`. -/
def mergedThenConcatPipeline (events : List Event) : Except String (List FinalChain) := do
  let chains ← chain_events_concatenation (sortByRel eventSortLe events)
  let merged ← chain_merge chains
  let cc ← chain_concatenation merged
  pure ((cc.map renameConcat).map mkFinal)

/-- Decidable equality of run results, used to evaluate the pipeline on
concrete fixtures. -/
instance {eps alpha : Type} [DecidableEq eps] [DecidableEq alpha] :
    DecidableEq (Except eps alpha) := fun a b =>
  match a, b with
  | .error e, .error f =>
    if h : e = f then .isTrue (by rw [h])
    else .isFalse (fun hc => by cases hc; exact h rfl)
  | .error _, .ok _ => .isFalse (fun hc => Except.noConfusion hc)
  | .ok _, .error _ => .isFalse (fun hc => Except.noConfusion hc)
  | .ok x, .ok y =>
    if h : x = y then .isTrue (by rw [h])
    else .isFalse (fun hc => by cases hc; exact h rfl)

/-- The merged chain produced from `[chSearchDisplay, chEmail]` (purchases
two days apart). -/
def mergedSDE : Chain :=
  { customer_id := 7
    conversion_id := (200, dJan3)
    conversion_timestamp := 20
    chain := ["Search", "Display", "Email"]
    first_event := dJan1
    purchase_date := dJan3
    purchase_value := 150 }

/-- Junk event used as the default of total head/last lookups (never
selected on the nonempty runs produced by `chunkBy`). -/
def dfltEvent : Event :=
  { customer_id := 0, session_id := 0, channel_group := "",
    first_event_ts := 0, first_event_date := ⟨1, 1, 1⟩, event_ts := 0,
    last_event_ts := 0, last_event_date := ⟨1, 1, 1⟩, f_purchased := false,
    session_revenue := 0 }

/-- Two events belong to the same session. -/
def sessEq (a b : Event) : Bool := a.session_id == b.session_id

/-- The maximal runs of same-session events in one customer's event list. -/
def sessionRuns (l : List Event) : List (List Event) := chunkBy sessEq l

/-- Input invariant: within a customer's event list every session forms one
contiguous run (no session is split into two runs).  Holds whenever the
events are sorted as `attribution.py` sorts them. -/
def sessionsContiguous (l : List Event) : Prop :=
  ((sessionRuns l).map (fun r => (r.headD dfltEvent).session_id)).Nodup

instance (l : List Event) : Decidable (sessionsContiguous l) :=
  inferInstanceAs (Decidable (List.Nodup _))

/-- Run-level restatement of the per-customer scan: each session run either
closes one chain (if its session converted) or pours its touchpoints into
the open accumulator. -/
def emitRuns (acc : List Channel) (fe? : Option Date) : List (List Event) → List Chain
  | [] => []
  | r :: rest =>
    let acc' := acc ++ r.map (·.channel_group)
    let fe := fe?.getD ((r.headD dfltEvent).first_event_date)
    if (r.getLastD dfltEvent).f_purchased then
      closeChain (r.getLastD dfltEvent) acc' fe :: emitRuns [] none rest
    else emitRuns acc' (some fe) rest

/-! ## Theorems -/

theorem insertLe_perm {α : Type} (le : α → α → Bool) (a : α) (l : List α) :
    List.Perm (insertLe le a l) (a :: l) := by
  induction l with
  | nil => simp [insertLe]
  | cons b bs ih =>
    by_cases h : le a b = true
    · simp [insertLe, h]
    · simp only [insertLe, h, if_false]
      exact (List.Perm.cons b ih).trans (List.Perm.swap a b bs)

theorem sortByRel_perm {α : Type} (le : α → α → Bool) (l : List α) :
    List.Perm (sortByRel le l) l := by
  induction l with
  | nil => simp [sortByRel]
  | cons a as ih =>
    exact (insertLe_perm le a (sortByRel le as)).trans (List.Perm.cons a ih)

theorem chunkBy_join {α : Type} (p : α → α → Bool) (l : List α) :
    (chunkBy p l).flatten = l := by
  induction l with
  | nil => simp [chunkBy]
  | cons a as ih =>
    cases as with
    | nil => simp [chunkBy]
    | cons b rest =>
      simp only [chunkBy]
      cases h : chunkBy p (b :: rest) with
      | nil => rw [h] at ih; simp at ih
      | cons c cs =>
        rw [h] at ih
        by_cases hp : p a b
        · simpa [hp] using ih
        · simpa [hp] using ih

theorem chunkBy_ne_nil {α : Type} (p : α → α → Bool) (l : List α) :
    ∀ c ∈ chunkBy p l, c ≠ [] := by
  induction l with
  | nil => simp [chunkBy]
  | cons a as ih =>
    cases as with
    | nil => simp [chunkBy]
    | cons b rest =>
      simp only [chunkBy]
      cases h : chunkBy p (b :: rest) with
      | nil => simp
      | cons c cs =>
        rw [h] at ih
        by_cases hp : p a b
        · simp only [hp, if_true]
          intro x hx
          cases List.mem_cons.mp hx with
          | inl hx => simp [hx]
          | inr hx => exact ih x (by simp [hx])
        · simp only [hp, if_false]
          intro x hx
          cases List.mem_cons.mp hx with
          | inl hx => simp [hx]
          | inr hx => exact ih x hx

theorem chunkBy_length_le {α : Type} (p : α → α → Bool) (l : List α) :
    (chunkBy p l).length ≤ l.length := by
  induction l with
  | nil => simp [chunkBy]
  | cons a as ih =>
    cases as with
    | nil => simp [chunkBy]
    | cons b rest =>
      simp only [chunkBy]
      cases h : chunkBy p (b :: rest) with
      | nil => simp
      | cons c cs =>
        rw [h] at ih
        by_cases hp : p a b
        · simp only [List.length_cons] at ih
          simp [hp]
          omega
        · simp only [List.length_cons] at ih
          simp [hp]
          omega

theorem map_proj_id {α β : Type} (g : β → α) (f : α → β) (h : ∀ x, g (f x) = x) :
    ∀ l : List α, (l.map f).map g = l := by
  intro l
  induction l with
  | nil => rfl
  | cons a as ih => simp only [List.map_cons, h, ih]

/-- Claim C7 (code_bug): the spec defines `chain_duration` as the total
number of days between `first_event` and `purchase_date` (35 for a chain
whose first touchpoint is 35 days before its purchase), but the code computes
`relativedelta(purchase_date, first_event).days`, which is only the residual
day component after whole calendar months are removed: for first_event
2020-01-01 and purchase_date 2020-02-05 — 35 days apart — the persisted
`chain_duration` is 4 (one month and four days), not 35. -/
theorem c7_chain_duration_is_relativedelta_days_not_total_days :
    (mkFinal { dfltChain with
                first_event := ⟨2020, 1, 1⟩
                purchase_date := ⟨2020, 2, 5⟩ }).chain_duration = 4 ∧
    Date.daysBetween ⟨2020, 2, 5⟩ ⟨2020, 1, 1⟩ = 35 ∧
    (mkFinal { dfltChain with
                first_event := ⟨2020, 1, 1⟩
                purchase_date := ⟨2020, 2, 5⟩ }).chain_duration ≠
      Date.daysBetween ⟨2020, 2, 5⟩ ⟨2020, 1, 1⟩ := by
  refine ⟨by decide, by decide, by decide⟩

/-- Claim C3 as stated is false: on the single-chain set
`[[Search, Display]]` there is exactly one distinct full ordered path, yet
`compute_channel_stats` emits two statistics rows — one per individual
channel label ("Display" and "Search"), because `explode('chain')` makes the
`chain` column hold single labels before `groupby('chain')`. -/
theorem c3_counterexample_stats_not_per_path :
    (compute_channel_stats [fcSearchDisplay]).map (·.channel_name) =
        ["Display", "Search"] ∧
    distinctPathCount [fcSearchDisplay] = 1 ∧
    (compute_channel_stats [fcSearchDisplay]).length ≠
      distinctPathCount [fcSearchDisplay] := by
  refine ⟨by decide, by decide, by decide⟩

/-- Claim C3 amended: `compute_channel_stats` groups by the individual
exploded channel label, not by the full ordered path — for every final chain
set it yields exactly one statistics row per distinct channel label
appearing in the exploded chains, in sorted key order. -/
theorem c3_amended_stats_per_channel_label (chains : List FinalChain) :
    (compute_channel_stats chains).map (·.channel_name) =
      sortedChannelKeys ((explodeRows 0 chains).map (·.channel)) := by
  unfold compute_channel_stats
  apply map_proj_id
  intro k
  rfl

theorem fvalDiv_nat_zero (n : ℕ) :
    FVal.div (.num (n : ℚ)) (.num 0) = .posInf ∨ FVal.div (.num (n : ℚ)) (.num 0) = .nan := by
  cases n with
  | zero => right; simp [FVal.div]
  | succ m =>
    left
    have ha : (0 : ℚ) < ((m + 1 : ℕ) : ℚ) := by exact_mod_cast Nat.succ_pos m
    simp only [FVal.div]
    rw [if_neg (by norm_num), if_pos ha]

theorem fvalDiv_opt_zero (o : Option ℕ) :
    FVal.div (optToFVal o) (.num 0) = .posInf ∨ FVal.div (optToFVal o) (.num 0) = .nan := by
  cases o with
  | none => right; simp [optToFVal, FVal.div]
  | some n => exact fvalDiv_nat_zero n

/-- Claim C9: on every channel statistics row whose last-touch chain count is
zero, both derived ratios are computed without aborting the run and come out
as an explicit non-finite marker (`+inf` or NaN, exactly as the pandas float
division produces) — in particular neither ratio is silently coerced to a
finite number such as zero. -/
theorem c9_zero_last_touch_ratio_is_undefined_marker
    (chains : List FinalChain) (s : ChannelStat)
    (hs : s ∈ compute_channel_stats chains)
    (h0 : s.nr_last_touch_chains = 0) :
    (s.ratio_assisted_last = .posInf ∨ s.ratio_assisted_last = .nan) ∧
    (s.ratio_first_last = .posInf ∨ s.ratio_first_last = .nan) ∧
    (∀ q : ℚ, s.ratio_assisted_last ≠ .num q) ∧
    (∀ q : ℚ, s.ratio_first_last ≠ .num q) := by
  unfold compute_channel_stats at hs
  obtain ⟨k, hk, hks⟩ := List.mem_map.mp hs
  have h1 : s.ratio_assisted_last =
      FVal.div (optToFVal s.nr_assisted_chains) (.num (s.nr_last_touch_chains : ℚ)) := by
    rw [← hks]
  have h2 : s.ratio_first_last =
      FVal.div (.num (s.nr_first_touch_chains : ℚ)) (.num (s.nr_last_touch_chains : ℚ)) := by
    rw [← hks]
  rw [h0] at h1 h2
  simp only [Nat.cast_zero] at h1 h2
  have ha := fvalDiv_opt_zero s.nr_assisted_chains
  have hb := fvalDiv_nat_zero s.nr_first_touch_chains
  rw [← h1] at ha
  rw [← h2] at hb
  refine ⟨ha, hb, ?_, ?_⟩
  · intro q hq
    cases ha with
    | inl h => exact FVal.noConfusion (hq.symm.trans h)
    | inr h => exact FVal.noConfusion (hq.symm.trans h)
  · intro q hq
    cases hb with
    | inl h => exact FVal.noConfusion (hq.symm.trans h)
    | inr h => exact FVal.noConfusion (hq.symm.trans h)

theorem searchStat_mem : searchStat ∈ compute_channel_stats [fcSearchDisplay] := by
  have h : 1 < (compute_channel_stats [fcSearchDisplay]).length := by decide
  unfold searchStat
  rw [List.getD_eq_getElem _ _ h]
  exact List.getElem_mem h

theorem c9_witness :
    searchStat ∈ compute_channel_stats [fcSearchDisplay] ∧
    searchStat.nr_last_touch_chains = 0 ∧
    ((searchStat.ratio_assisted_last = .posInf ∨ searchStat.ratio_assisted_last = .nan) ∧
     (searchStat.ratio_first_last = .posInf ∨ searchStat.ratio_first_last = .nan) ∧
     (∀ q : ℚ, searchStat.ratio_assisted_last ≠ .num q) ∧
     (∀ q : ℚ, searchStat.ratio_first_last ≠ .num q)) :=
  ⟨searchStat_mem, by decide,
    c9_zero_last_touch_ratio_is_undefined_marker [fcSearchDisplay] searchStat
      searchStat_mem (by decide)⟩

theorem chainRows_conv (i : Nat) (c : FinalChain) :
    ∀ r ∈ chainRows i c, r.conversion_id = c.conversion_id := by
  intro r hr
  unfold chainRows at hr
  obtain ⟨p, _, rfl⟩ := List.mem_map.mp hr
  rfl

theorem explodeRows_conv (chains : List FinalChain) :
    ∀ i, ∀ r ∈ explodeRows i chains, r.conversion_id ∈ chains.map (·.conversion_id) := by
  induction chains with
  | nil => intro i r hr; simp [explodeRows] at hr
  | cons d rest ih =>
    intro i r hr
    simp only [explodeRows, List.mem_append] at hr
    cases hr with
    | inl h => simp [chainRows_conv i d r h]
    | inr h =>
      simp only [List.map_cons, List.mem_cons]
      exact Or.inr (ih _ r h)

theorem filter_chainRows_self (i : Nat) (c : FinalChain) :
    (chainRows i c).filter (fun r => r.conversion_id == c.conversion_id) = chainRows i c := by
  rw [List.filter_eq_self]
  intro r hr
  simp [chainRows_conv i c r hr]

theorem filter_chainRows_ne (i : Nat) (c : FinalChain) (v : ConvId)
    (h : v ≠ c.conversion_id) :
    (chainRows i c).filter (fun r => r.conversion_id == v) = [] := by
  rw [List.filter_eq_nil_iff]
  intro r hr
  rw [chainRows_conv i c r hr]
  simp [Ne.symm h]

theorem filter_explode_eq (chains : List FinalChain) (c : FinalChain)
    (hnd : (chains.map (·.conversion_id)).Nodup) (hc : c ∈ chains) :
    ∀ i, ∃ j, (explodeRows i chains).filter
        (fun r => r.conversion_id == c.conversion_id) = chainRows j c := by
  induction chains with
  | nil => cases hc
  | cons d rest ih =>
    intro i
    simp only [List.map_cons, List.nodup_cons] at hnd
    obtain ⟨hdnot, hndrest⟩ := hnd
    simp only [explodeRows, List.filter_append]
    cases List.mem_cons.mp hc with
    | inl hcd =>
      subst hcd
      refine ⟨i, ?_⟩
      rw [filter_chainRows_self]
      have hnil : (explodeRows (i + c.chain.length) rest).filter
          (fun r => r.conversion_id == c.conversion_id) = [] := by
        rw [List.filter_eq_nil_iff]
        intro r hr hcontra
        apply hdnot
        have := explodeRows_conv rest _ r hr
        rwa [← (by simpa using hcontra : r.conversion_id = c.conversion_id)]
      rw [hnil, List.append_nil]
    | inr hcrest =>
      have hne : c.conversion_id ≠ d.conversion_id := by
        intro h
        apply hdnot
        rw [← h]
        exact List.mem_map.mpr ⟨c, hcrest, rfl⟩
      obtain ⟨j, hj⟩ := ih hndrest hcrest (i + d.chain.length)
      refine ⟨j, ?_⟩
      rw [filter_chainRows_ne i d c.conversion_id hne, hj, List.nil_append]

/-- Claim C8: in the Channel Statistics Aggregator's labelled frame, a chain
of length 1 contributes exactly one exploded touchpoint row, and that row is
labelled `first_channel = 0` (the single touchpoint is never a first touch),
`last_channel = 1`, `assist_channel = 0`, and mono-touch flag `1`. -/
theorem c8_mono_touch_chain_flags (chains : List FinalChain) (c : FinalChain)
    (ch : Channel)
    (hnd : (chains.map (·.conversion_id)).Nodup) (hc : c ∈ chains)
    (hlen : c.chain_len = 1) (hch : c.chain = [ch]) :
    ∃ ro ∈ labeledRows chains,
      ro.1.conversion_id = c.conversion_id ∧ ro.1.channel = ch ∧
      (∀ ro2 ∈ labeledRows chains, ro2.1.conversion_id = c.conversion_id → ro2 = ro) ∧
      first_channel_flag ro.2 ro.1.chain_len = 0 ∧
      last_channel_flag ro.2 ro.1.chain_len = 1 ∧
      assist_channel_flag ro.2 ro.1.chain_len = 0 ∧
      mono_touch_flag ro.1.chain_len = 1 := by
  obtain ⟨j, hj⟩ := filter_explode_eq chains c hnd hc 0
  have hrows : chainRows j c =
      [{ idx := j + 0, conversion_id := c.conversion_id, channel := ch,
         chain_len := c.chain_len, purchase_value := c.purchase_value }] := by
    unfold chainRows
    rw [hch]
    rfl
  set r : TPRow :=
    { idx := j + 0, conversion_id := c.conversion_id, channel := ch,
      chain_len := c.chain_len, purchase_value := c.purchase_value } with hr
  rw [hrows] at hj
  have hrmem : r ∈ explodeRows 0 chains := by
    have : r ∈ (explodeRows 0 chains).filter
        (fun r2 => r2.conversion_id == c.conversion_id) := by
      rw [hj]; exact List.mem_singleton_self r
    exact List.mem_of_mem_filter this
  have horder : orderVal (explodeRows 0 chains) r = 1 := by
    unfold orderVal
    have hsplit : (explodeRows 0 chains).filter
        (fun r2 => r2.conversion_id == r.conversion_id && decide (r2.idx < r.idx)) =
        ((explodeRows 0 chains).filter
          (fun r2 => r2.conversion_id == c.conversion_id)).filter
            (fun r2 => decide (r2.idx < r.idx)) := by
      rw [List.filter_filter]
      exact List.filter_congr (fun x _ => Bool.and_comm _ _)
    rw [hsplit, hj]
    simp
  refine ⟨(r, orderVal (explodeRows 0 chains) r), ?_, rfl, rfl, ?_, ?_, ?_, ?_, ?_⟩
  · exact List.mem_map.mpr ⟨r, hrmem, rfl⟩
  · intro ro2 hro2 hconv
    obtain ⟨r2, hr2mem, hr2eq⟩ := List.mem_map.mp hro2
    have : r2 ∈ (explodeRows 0 chains).filter
        (fun r2 => r2.conversion_id == c.conversion_id) := by
      refine List.mem_filter.mpr ⟨hr2mem, ?_⟩
      rw [← hr2eq] at hconv
      simpa using hconv
    rw [hj, List.mem_singleton] at this
    rw [← hr2eq, this]
  · have : r.chain_len = 1 := hlen
    rw [horder, this]
    rfl
  · have : r.chain_len = 1 := hlen
    rw [horder, this]
    rfl
  · have : r.chain_len = 1 := hlen
    rw [horder, this]
    rfl
  · have : r.chain_len = 1 := hlen
    rw [this]
    rfl

theorem c8_witness :
    (([fcEmailMono].map (·.conversion_id)).Nodup ∧ fcEmailMono ∈ [fcEmailMono] ∧
      fcEmailMono.chain_len = 1 ∧ fcEmailMono.chain = ["Email"]) ∧
    (∃ ro ∈ labeledRows [fcEmailMono],
      ro.1.conversion_id = fcEmailMono.conversion_id ∧ ro.1.channel = "Email" ∧
      (∀ ro2 ∈ labeledRows [fcEmailMono],
        ro2.1.conversion_id = fcEmailMono.conversion_id → ro2 = ro) ∧
      first_channel_flag ro.2 ro.1.chain_len = 0 ∧
      last_channel_flag ro.2 ro.1.chain_len = 1 ∧
      assist_channel_flag ro.2 ro.1.chain_len = 0 ∧
      mono_touch_flag ro.1.chain_len = 1) :=
  ⟨⟨by decide, by decide, by decide, rfl⟩,
    c8_mono_touch_chain_flags [fcEmailMono] fcEmailMono "Email"
      (by decide) (by decide) (by decide) rfl⟩

/-- Claim C5: for two chains of the same customer, adjacent in time order,
whose purchase dates differ by exactly the merge threshold (3 days),
`chain_merge` combines them into a single chain (with summed value,
concatenated touchpoints, and the later conversion's identity); when the
purchase dates differ by threshold + 1 (4 days) the two chains are kept
separate and unchanged. -/
theorem c5_merge_threshold_window (c1 c2 : Chain)
    (hcust : c1.customer_id = c2.customer_id)
    (hts : c1.conversion_timestamp ≤ c2.conversion_timestamp)
    (hid : c1.conversion_id ≠ c2.conversion_id) :
    (c2.purchase_date.daysBetween c1.purchase_date = MERGE_PURCH_DAYS_TH →
      chain_merge [c1, c2] = .ok
        [{ customer_id := c1.customer_id
           conversion_id := c2.conversion_id
           conversion_timestamp := c2.conversion_timestamp
           chain := c1.chain ++ c2.chain
           first_event :=
             if c2.first_event.ord < c1.first_event.ord then c2.first_event
             else c1.first_event
           purchase_date := c2.purchase_date
           purchase_value := c1.purchase_value + c2.purchase_value }]) ∧
    (c2.purchase_date.daysBetween c1.purchase_date = MERGE_PURCH_DAYS_TH + 1 →
      chain_merge [c1, c2] = .ok [c1, c2]) := by
  have hle : mergeSortLe c1 c2 = true := by
    simp [mergeSortLe, hcust, hts]
  have hsort : sortByRel mergeSortLe [c1, c2] = [c1, c2] := by
    simp [sortByRel, insertLe, hle]
  have hchunk : chunkBy custEq [c1, c2] = [[c1, c2]] := by
    simp [chunkBy, custEq, hcust]
  have hzero : ¬ (c1.purchase_date.daysBetween c1.purchase_date > MERGE_PURCH_DAYS_TH) := by
    simp [Date.daysBetween, MERGE_PURCH_DAYS_TH]
  constructor
  · intro hgap
    have hlt : c1.purchase_date.ord < c2.purchase_date.ord := by
      unfold Date.daysBetween at hgap
      unfold MERGE_PURCH_DAYS_TH at hgap
      omega
    have hcalc : calcRanks [c1, c2] = [(c1, 1), (c2, 1)] := by
      unfold calcRanks
      simp [calcRanksAux, hgap, hzero]
    have hrk : chunkBy rankEq [(c1, 1), (c2, 1)] = [[(c1, 1), (c2, 1)]] := by
      simp [chunkBy, rankEq]
    unfold chain_merge mergeCore
    rw [hsort, hchunk]
    simp only [List.map, hcalc, hrk, List.flatten]
    simp [reduceRankGroup, hlt]
  · intro hgap
    have hgt : MERGE_PURCH_DAYS_TH + 1 > MERGE_PURCH_DAYS_TH := by
      norm_num
    have hcalc : calcRanks [c1, c2] = [(c1, 1), (c2, 2)] := by
      unfold calcRanks
      simp [calcRanksAux, hgap, hzero, hgt]
    have hrk : chunkBy rankEq [(c1, 1), (c2, 2)] = [[(c1, 1)], [(c2, 2)]] := by
      simp [chunkBy, rankEq]
    unfold chain_merge mergeCore
    rw [hsort, hchunk]
    simp only [List.map, hcalc, hrk, List.flatten]
    simp [reduceRankGroup, hid]

theorem c5_witness :
    (chSearchDisplay.customer_id = chEmailDay3.customer_id ∧
     chSearchDisplay.conversion_timestamp ≤ chEmailDay3.conversion_timestamp ∧
     chSearchDisplay.conversion_id ≠ chEmailDay3.conversion_id ∧
     chEmailDay3.purchase_date.daysBetween chSearchDisplay.purchase_date =
       MERGE_PURCH_DAYS_TH ∧
     chEmailDay4.purchase_date.daysBetween chSearchDisplay.purchase_date =
       MERGE_PURCH_DAYS_TH + 1) ∧
    chain_merge [chSearchDisplay, chEmailDay3] = .ok
      [{ customer_id := 7
         conversion_id := (200, dJan3)
         conversion_timestamp := 20
         chain := ["Search", "Display", "Email"]
         first_event := dJan1
         purchase_date := ⟨2020, 1, 4⟩
         purchase_value := 150 }] ∧
    chain_merge [chSearchDisplay, chEmailDay4] = .ok [chSearchDisplay, chEmailDay4] :=
  ⟨⟨by decide, by decide, by decide, by decide, by decide⟩,
    (c5_merge_threshold_window chSearchDisplay chEmailDay3
      (by decide) (by decide) (by decide)).1 (by decide),
    (c5_merge_threshold_window chSearchDisplay chEmailDay4
      (by decide) (by decide) (by decide)).2 (by decide)⟩

/-- Claim C6: for two chains of the same customer with the second purchase
strictly later, `chain_concatenation` prepends the earlier chain's
touchpoints onto the later chain's concatenated sequence when the purchase
dates are exactly 10 days apart (the concatenation threshold), and does not
when they are 11 days apart; the earlier chain's own row and every raw
`chain` column are left untouched in both cases. -/
theorem c6_concat_threshold_window (c1 c2 : Chain)
    (hcust : c1.customer_id = c2.customer_id)
    (hid : c1.conversion_id ≠ c2.conversion_id)
    (hlt : c1.purchase_date.ord < c2.purchase_date.ord) :
    (c2.purchase_date.daysBetween c1.purchase_date = CHAIN_CONCAT_DAYS_TH →
      chain_concatenation [c1, c2] = .ok
        [{ customer_id := c2.customer_id
           conversion_id := c2.conversion_id
           conversion_timestamp := c2.conversion_timestamp
           chain := c2.chain
           first_event := c2.first_event
           purchase_date := c2.purchase_date
           purchase_value := c2.purchase_value
           concat_chain := c1.chain ++ c2.chain },
         { customer_id := c1.customer_id
           conversion_id := c1.conversion_id
           conversion_timestamp := c1.conversion_timestamp
           chain := c1.chain
           first_event := c1.first_event
           purchase_date := c1.purchase_date
           purchase_value := c1.purchase_value
           concat_chain := c1.chain }]) ∧
    (c2.purchase_date.daysBetween c1.purchase_date = CHAIN_CONCAT_DAYS_TH + 1 →
      chain_concatenation [c1, c2] = .ok
        [{ customer_id := c2.customer_id
           conversion_id := c2.conversion_id
           conversion_timestamp := c2.conversion_timestamp
           chain := c2.chain
           first_event := c2.first_event
           purchase_date := c2.purchase_date
           purchase_value := c2.purchase_value
           concat_chain := c2.chain },
         { customer_id := c1.customer_id
           conversion_id := c1.conversion_id
           conversion_timestamp := c1.conversion_timestamp
           chain := c1.chain
           first_event := c1.first_event
           purchase_date := c1.purchase_date
           purchase_value := c1.purchase_value
           concat_chain := c1.chain }]) := by
  have hsle : concatSortLe c1 c2 = false := by
    simp [concatSortLe, hcust, hlt, not_le.mpr hlt]
  have hsort : sortByRel concatSortLe [c1, c2] = [c2, c1] := by
    simp [sortByRel, insertLe, hsle]
  have hchunk : chunkBy custEq [c2, c1] = [[c2, c1]] := by
    simp [chunkBy, custEq, hcust]
  have hnlt : ¬ (c1.purchase_date.ord > c2.purchase_date.ord) := by
    omega
  have hne : c2.conversion_id ≠ c1.conversion_id := Ne.symm hid
  constructor
  · intro hgap
    unfold chain_concatenation concatCore
    rw [hsort, hchunk]
    simp only [List.map, List.flatten, List.append_nil]
    simp [concatGroup, List.enum, List.enumFrom, hgap, hlt, hnlt, hne]
  · intro hgap
    have hgt : ¬ (CHAIN_CONCAT_DAYS_TH + 1 ≤ CHAIN_CONCAT_DAYS_TH) := by norm_num
    unfold chain_concatenation concatCore
    rw [hsort, hchunk]
    simp only [List.map, List.flatten, List.append_nil]
    simp [concatGroup, List.enum, List.enumFrom, hgap, hlt, hnlt, hne, hgt]

theorem c6_witness :
    (chSearchDisplay.customer_id = chEmailDay10.customer_id ∧
     chSearchDisplay.conversion_id ≠ chEmailDay10.conversion_id ∧
     chSearchDisplay.purchase_date.ord < chEmailDay10.purchase_date.ord ∧
     chEmailDay10.purchase_date.daysBetween chSearchDisplay.purchase_date =
       CHAIN_CONCAT_DAYS_TH ∧
     chEmailDay11.purchase_date.daysBetween chSearchDisplay.purchase_date =
       CHAIN_CONCAT_DAYS_TH + 1) ∧
    chain_concatenation [chSearchDisplay, chEmailDay10] = .ok
      [{ customer_id := 7
         conversion_id := (200, dJan3)
         conversion_timestamp := 20
         chain := ["Email"]
         first_event := dJan3
         purchase_date := ⟨2020, 1, 11⟩
         purchase_value := 50
         concat_chain := ["Search", "Display", "Email"] },
       { customer_id := 7
         conversion_id := (100, dJan1)
         conversion_timestamp := 10
         chain := ["Search", "Display"]
         first_event := dJan1
         purchase_date := dJan1
         purchase_value := 100
         concat_chain := ["Search", "Display"] }] ∧
    chain_concatenation [chSearchDisplay, chEmailDay11] = .ok
      [{ customer_id := 7
         conversion_id := (200, dJan3)
         conversion_timestamp := 20
         chain := ["Email"]
         first_event := dJan3
         purchase_date := ⟨2020, 1, 12⟩
         purchase_value := 50
         concat_chain := ["Email"] },
       { customer_id := 7
         conversion_id := (100, dJan1)
         conversion_timestamp := 10
         chain := ["Search", "Display"]
         first_event := dJan1
         purchase_date := dJan1
         purchase_value := 100
         concat_chain := ["Search", "Display"] }] :=
  ⟨⟨by decide, by decide, by decide, by decide, by decide⟩,
    (c6_concat_threshold_window chSearchDisplay chEmailDay10
      (by decide) (by decide) (by decide)).1 (by decide),
    (c6_concat_threshold_window chSearchDisplay chEmailDay11
      (by decide) (by decide) (by decide)).2 (by decide)⟩

/-- Claim C2 as stated is false: on an event table with two conversions two
days apart the real pipeline (which feeds the *Builder's* chains to the
Concatenator, attribution.py line 93) keeps 2 rows, while the claimed
`Builder → Merger → Concatenator` composition would keep only 1 — the final
chain sets differ. -/
theorem c2_counterexample_concat_input :
    (mainPreprocess true exC2Events).map List.length = .ok 2 ∧
    (mergedThenConcatPipeline exC2Events).map List.length = .ok 1 ∧
    mainPreprocess true exC2Events ≠ mergedThenConcatPipeline exC2Events := by
  have h1 : (mainPreprocess true exC2Events).map List.length = .ok 2 := by decide
  have h2 : (mergedThenConcatPipeline exC2Events).map List.length = .ok 1 := by decide
  refine ⟨h1, h2, fun h => ?_⟩
  rw [h] at h1
  exact absurd (h1.symm.trans h2) (by decide)

/-- Claim C2 amended: when chain concatenation is enabled, the Chain
Concatenator operates on the *Chain Builder's* output, not the Merger's —
whenever the Builder yields `chains` and the Merger's check passes, the
final chain set is `chain_concatenation(chains)` with `concat_chain` renamed
to `chain` and the derived columns added (the merged frame is computed and
checked but not passed on). -/
theorem c2_amended_concat_applies_to_builder_output
    (events : List Event) (chains merged : List Chain)
    (hb : chain_events_concatenation (sortByRel eventSortLe events) = .ok chains)
    (hm : chain_merge chains = .ok merged) :
    mainPreprocess true events =
      (chain_concatenation chains).map (fun l => (l.map renameConcat).map mkFinal) := by
  cases hc : chain_concatenation chains with
  | error e =>
    simp [mainPreprocess, hb, hm, hc, Except.map, Bind.bind, Except.bind]
  | ok l =>
    simp [mainPreprocess, hb, hm, hc, Except.map, Bind.bind, Except.bind, Pure.pure,
      Except.pure]

theorem c2_witness :
    chain_events_concatenation (sortByRel eventSortLe exC2Events) =
      .ok [chSearchDisplay, chEmail] ∧
    chain_merge [chSearchDisplay, chEmail] = .ok [mergedSDE] ∧
    mainPreprocess true exC2Events =
      (chain_concatenation [chSearchDisplay, chEmail]).map
        (fun l => (l.map renameConcat).map mkFinal) :=
  ⟨by decide, by decide,
    c2_amended_concat_applies_to_builder_output exC2Events
      [chSearchDisplay, chEmail] [mergedSDE] (by decide) (by decide)⟩

theorem calcRanksAux_map_fst (l : List Chain) :
    ∀ rk dk, ((calcRanksAux rk dk l).map (·.1)) = l := by
  induction l with
  | nil => intro rk dk; rfl
  | cons c rest ih => intro rk dk; simp [calcRanksAux, ih]

theorem calcRanks_map_fst (l : List Chain) : (calcRanks l).map (·.1) = l := by
  cases l with
  | nil => rfl
  | cons c rest => exact calcRanksAux_map_fst _ _ _

theorem reduceRankGroup_value (g : List (Chain × Nat)) :
    (reduceRankGroup g).purchase_value = (g.map (·.1.purchase_value)).sum := by
  cases g with
  | nil => simp [reduceRankGroup, dfltChain]
  | cons x xs => simp [reduceRankGroup]

theorem sum_map_flatten {α : Type} (f : α → Int) (L : List (List α)) :
    ((L.flatten).map f).sum = (L.map (fun l => (l.map f).sum)).sum := by
  induction L with
  | nil => rfl
  | cons g gs ih =>
    simp only [List.flatten_cons, List.map_append, List.sum_append, List.map_cons,
      List.sum_cons, ih]

theorem sum_over_chunks {α : Type} (f : α → Int) (p : α → α → Bool) (l : List α) :
    ((chunkBy p l).map (fun g => (g.map f).sum)).sum = (l.map f).sum := by
  conv_rhs => rw [← chunkBy_join p l]
  rw [sum_map_flatten]

/-- Claim C10: `chain_merge` conserves total purchase value — for every
input chain set, the sum of `purchase_value` over the merged frame equals
the sum over the input (merging neither loses nor double-counts conversion
value). -/
theorem c10_merge_conserves_total_value (chains : List Chain) :
    ((mergeCore chains).map (·.purchase_value)).sum =
      (chains.map (·.purchase_value)).sum := by
  have hgroup : ∀ g : List Chain,
      ((((chunkBy rankEq (calcRanks g)).map reduceRankGroup).map
        (·.purchase_value)).sum) = (g.map (·.purchase_value)).sum := by
    intro g
    rw [List.map_map]
    have h1 : ((fun c : Chain => c.purchase_value) ∘ reduceRankGroup) =
        fun rg : List (Chain × Nat) => (rg.map (·.1.purchase_value)).sum := by
      funext rg
      exact reduceRankGroup_value rg
    rw [h1, sum_over_chunks]
    have h2 : (calcRanks g).map (·.1.purchase_value) =
        ((calcRanks g).map (·.1)).map (·.purchase_value) := by
      rw [List.map_map]
      rfl
    rw [h2, calcRanks_map_fst]
  unfold mergeCore
  rw [sum_map_flatten, List.map_map]
  have h3 : ((fun l : List Chain => (l.map (·.purchase_value)).sum) ∘
      (fun g => (chunkBy rankEq (calcRanks g)).map reduceRankGroup)) =
      fun g : List Chain => (g.map (·.purchase_value)).sum := by
    funext g
    exact hgroup g
  rw [h3, sum_over_chunks]
  exact List.Perm.sum_eq ((sortByRel_perm mergeSortLe chains).map (·.purchase_value))

theorem sortByRel_eq_self {α : Type} (le : α → α → Bool) (l : List α)
    (h : List.Chain' (fun a b => le a b = true) l) : sortByRel le l = l := by
  induction l with
  | nil => rfl
  | cons a as ih =>
    have htail : List.Chain' (fun a b => le a b = true) as := h.tail
    unfold sortByRel
    rw [ih htail]
    cases as with
    | nil => rfl
    | cons b bs =>
      have hab : le a b = true := List.chain'_cons.mp h |>.1
      simp [insertLe, hab]

theorem chunkBy_all {α : Type} (p : α → α → Bool) (l : List α) (hne : l ≠ [])
    (h : List.Chain' (fun a b => p a b = true) l) : chunkBy p l = [l] := by
  induction l with
  | nil => exact absurd rfl hne
  | cons a as ih =>
    cases as with
    | nil => rfl
    | cons b bs =>
      have hab : p a b = true := List.chain'_cons.mp h |>.1
      have htail := List.chain'_cons.mp h |>.2
      unfold chunkBy
      rw [ih (by simp) htail]
      simp [hab]

theorem getLastD_map {α β : Type} (f : α → β) (xs : List α) :
    ∀ x, (xs.map f).getLastD (f x) = f (xs.getLastD x) := by
  induction xs with
  | nil => intro x; rfl
  | cons y ys ih =>
    intro x
    rw [List.map_cons, List.getLastD_cons, List.getLastD_cons]
    exact ih y

/-- The foldl that `agg 'min'` performs on a date column: the result is an
element of `init :: l` and a lower bound for it. -/
theorem foldl_dmin_spec (l : List Date) : ∀ init : Date,
    (l.foldl (fun acc y => if y.ord < acc.ord then y else acc) init) ∈ init :: l ∧
    (l.foldl (fun acc y => if y.ord < acc.ord then y else acc) init).ord ≤ init.ord ∧
    ∀ x ∈ l, (l.foldl (fun acc y => if y.ord < acc.ord then y else acc) init).ord ≤ x.ord := by
  induction l with
  | nil => intro init; exact ⟨List.mem_singleton_self init, le_refl _, by simp⟩
  | cons y ys ih =>
    intro init
    rw [List.foldl_cons]
    by_cases hy : y.ord < init.ord
    · rw [if_pos hy]
      obtain ⟨hmem, hle, hall⟩ := ih y
      refine ⟨List.mem_cons_of_mem init hmem, le_trans hle (le_of_lt hy), ?_⟩
      intro x hx
      cases List.mem_cons.mp hx with
      | inl h => rw [h]; exact hle
      | inr h => exact hall x h
    · rw [if_neg hy]
      obtain ⟨hmem, hle, hall⟩ := ih init
      refine ⟨?_, hle, ?_⟩
      · cases List.mem_cons.mp hmem with
        | inl h => rw [h]; simp
        | inr h => simp [h]
      · intro x hx
        cases List.mem_cons.mp hx with
        | inl h => rw [h]; exact le_trans hle (not_lt.mp hy)
        | inr h => exact hall x h

/-- The foldl that `agg 'max'` performs on a date column: the result is an
element of `init :: l` and an upper bound for it. -/
theorem foldl_dmax_spec (l : List Date) : ∀ init : Date,
    (l.foldl (fun acc y => if acc.ord < y.ord then y else acc) init) ∈ init :: l ∧
    init.ord ≤ (l.foldl (fun acc y => if acc.ord < y.ord then y else acc) init).ord ∧
    ∀ x ∈ l, x.ord ≤ (l.foldl (fun acc y => if acc.ord < y.ord then y else acc) init).ord := by
  induction l with
  | nil => intro init; exact ⟨List.mem_singleton_self init, le_refl _, by simp⟩
  | cons y ys ih =>
    intro init
    rw [List.foldl_cons]
    by_cases hy : init.ord < y.ord
    · rw [if_pos hy]
      obtain ⟨hmem, hle, hall⟩ := ih y
      refine ⟨List.mem_cons_of_mem init hmem, le_trans (le_of_lt hy) hle, ?_⟩
      intro x hx
      cases List.mem_cons.mp hx with
      | inl h => rw [h]; exact hle
      | inr h => exact hall x h
    · rw [if_neg hy]
      obtain ⟨hmem, hle, hall⟩ := ih init
      refine ⟨?_, hle, ?_⟩
      · cases List.mem_cons.mp hmem with
        | inl h => rw [h]; simp
        | inr h => simp [h]
      · intro x hx
        cases List.mem_cons.mp hx with
        | inl h => rw [h]; exact le_trans (not_lt.mp hy) hle
        | inr h => exact hall x h

theorem reduce_conv_mem (g : List (Chain × Nat)) (hne : g ≠ []) :
    (reduceRankGroup g).conversion_id ∈ g.map (·.1.conversion_id) := by
  cases g with
  | nil => exact absurd rfl hne
  | cons x xs =>
    have hmem : (xs.map (·.1)).getLastD x.1 ∈ x.1 :: xs.map (·.1) :=
      List.getLastD_mem_cons _ _
    have : (reduceRankGroup (x :: xs)).conversion_id =
        ((xs.map (·.1)).getLastD x.1).conversion_id := rfl
    rw [this]
    rcases List.mem_cons.mp hmem with h | h
    · rw [h]; simp
    · simp only [List.map_cons, List.mem_cons]
      right
      obtain ⟨y, hy, hyeq⟩ := List.mem_map.mp h
      rw [← hyeq]
      exact List.mem_map.mpr ⟨y, hy, rfl⟩

theorem nodup_reduce_convs (L : List (List (Chain × Nat)))
    (hnil : ∀ g ∈ L, g ≠ [])
    (hnd : ((L.flatten).map (·.1.conversion_id)).Nodup) :
    (L.map (fun g => (reduceRankGroup g).conversion_id)).Nodup := by
  induction L with
  | nil => simp
  | cons g rest ih =>
    simp only [List.flatten_cons, List.map_append, List.nodup_append] at hnd
    obtain ⟨hg, hrest, hdisj⟩ := hnd
    simp only [List.map_cons, List.nodup_cons]
    constructor
    · intro hmem
      obtain ⟨g2, hg2, hg2eq⟩ := List.mem_map.mp hmem
      have h1 : (reduceRankGroup g).conversion_id ∈ g.map (·.1.conversion_id) :=
        reduce_conv_mem g (hnil g (by simp))
      have h2 : (reduceRankGroup g2).conversion_id ∈ g2.map (·.1.conversion_id) :=
        reduce_conv_mem g2 (hnil g2 (by simp [hg2]))
      have h3 : (reduceRankGroup g2).conversion_id ∈
          (rest.flatten).map (·.1.conversion_id) := by
        obtain ⟨y, hy, hyeq⟩ := List.mem_map.mp h2
        exact List.mem_map.mpr ⟨y, List.mem_flatten.mpr ⟨g2, hg2, hy⟩, hyeq⟩
      rw [hg2eq] at h3
      exact hdisj h1 h3
    · exact ih (fun g2 hg2 => hnil g2 (by simp [hg2])) hrest

theorem chain'_mergeLe (cid : Nat) : ∀ l : List Chain,
    (∀ c ∈ l, c.customer_id = cid) →
    List.Chain' (fun a b : Chain => a.conversion_timestamp ≤ b.conversion_timestamp) l →
    List.Chain' (fun a b => mergeSortLe a b = true) l := by
  intro l
  induction l with
  | nil => intro _ _; exact List.chain'_nil
  | cons a as ih =>
    intro hc ht
    cases as with
    | nil => simp
    | cons b bs =>
      rw [List.chain'_cons] at ht ⊢
      refine ⟨?_, ih (fun c hc2 => hc c (List.mem_cons_of_mem _ hc2)) ht.2⟩
      have ha := hc a (by simp)
      have hb := hc b (by simp)
      simp [mergeSortLe, ha, hb, ht.1]

theorem chain'_custEq (cid : Nat) : ∀ l : List Chain,
    (∀ c ∈ l, c.customer_id = cid) →
    List.Chain' (fun a b => custEq a b = true) l := by
  intro l
  induction l with
  | nil => intro _; exact List.chain'_nil
  | cons a as ih =>
    intro hc
    cases as with
    | nil => simp
    | cons b bs =>
      rw [List.chain'_cons]
      refine ⟨?_, ih (fun c hc2 => hc c (List.mem_cons_of_mem _ hc2))⟩
      have ha := hc a (by simp)
      have hb := hc b (by simp)
      simp [custEq, ha, hb]

/-- Claim C4: for a customer's chains (time-ordered, with distinct
conversion ids), `chain_merge` succeeds and reduces every merge group
(a maximal run of chains sharing a rank) to one chain whose `conversion_id`
and `conversion_timestamp` are those of the last chain of the group, whose
`first_event` is the minimum, `purchase_date` the maximum, `purchase_value`
the sum, and whose `chain` is the ordered concatenation of the group's
chains in increasing time order. -/
theorem c4_merge_group_reduction (cid : Nat) (chains : List Chain)
    (hne : chains ≠ [])
    (hcust : ∀ c ∈ chains, c.customer_id = cid)
    (hts : List.Chain'
      (fun a b : Chain => a.conversion_timestamp ≤ b.conversion_timestamp) chains)
    (hnd : (chains.map (·.conversion_id)).Nodup) :
    chain_merge chains = .ok ((chunkBy rankEq (calcRanks chains)).map reduceRankGroup) ∧
    ∀ g ∈ chunkBy rankEq (calcRanks chains),
      g ≠ [] ∧
      (reduceRankGroup g).conversion_id =
        ((g.map (·.1)).getLastD dfltChain).conversion_id ∧
      (reduceRankGroup g).conversion_timestamp =
        ((g.map (·.1)).getLastD dfltChain).conversion_timestamp ∧
      ((reduceRankGroup g).first_event ∈ g.map (·.1.first_event) ∧
        ∀ x ∈ g, (reduceRankGroup g).first_event.ord ≤ x.1.first_event.ord) ∧
      ((reduceRankGroup g).purchase_date ∈ g.map (·.1.purchase_date) ∧
        ∀ x ∈ g, x.1.purchase_date.ord ≤ (reduceRankGroup g).purchase_date.ord) ∧
      (reduceRankGroup g).purchase_value = (g.map (·.1.purchase_value)).sum ∧
      (reduceRankGroup g).chain = (g.map (·.1.chain)).flatten := by
  have hsort : sortByRel mergeSortLe chains = chains :=
    sortByRel_eq_self _ _ (chain'_mergeLe cid chains hcust hts)
  have hchunk : chunkBy custEq chains = [chains] :=
    chunkBy_all _ _ hne (chain'_custEq cid chains hcust)
  have hmc : mergeCore chains =
      (chunkBy rankEq (calcRanks chains)).map reduceRankGroup := by
    unfold mergeCore
    rw [hsort, hchunk]
    simp
  have hconvnd : ((chunkBy rankEq (calcRanks chains)).flatten.map
      (·.1.conversion_id)).Nodup := by
    rw [chunkBy_join]
    have h1 : (calcRanks chains).map (·.1.conversion_id) =
        ((calcRanks chains).map (·.1)).map (·.conversion_id) := by
      rw [List.map_map]
      rfl
    rw [h1, calcRanks_map_fst]
    exact hnd
  have hout : (((chunkBy rankEq (calcRanks chains)).map reduceRankGroup).map
      (·.conversion_id)).Nodup := by
    have h2 : ((chunkBy rankEq (calcRanks chains)).map reduceRankGroup).map
        (·.conversion_id) = (chunkBy rankEq (calcRanks chains)).map
          (fun g => (reduceRankGroup g).conversion_id) := by
      rw [List.map_map]
      rfl
    rw [h2]
    exact nodup_reduce_convs _ (chunkBy_ne_nil rankEq (calcRanks chains)) hconvnd
  constructor
  · unfold chain_merge
    simp only [hmc]
    rw [List.dedup_eq_self.mpr hout]
    simp [List.length_map]
  · intro g hg
    have hgne : g ≠ [] := chunkBy_ne_nil rankEq (calcRanks chains) g hg
    refine ⟨hgne, ?_⟩
    cases g with
    | nil => exact absurd rfl hgne
    | cons x xs =>
      refine ⟨?_, ?_, ?_, ?_, reduceRankGroup_value _, ?_⟩
      · rw [List.map_cons, List.getLastD_cons]
        rfl
      · rw [List.map_cons, List.getLastD_cons]
        rfl
      · have hf : (reduceRankGroup (x :: xs)).first_event =
            (xs.map (·.1.first_event)).foldl
              (fun acc y => if y.ord < acc.ord then y else acc) x.1.first_event := by
          rw [List.foldl_map]
          rfl
        obtain ⟨hmem, hle, hall⟩ :=
          foldl_dmin_spec (xs.map (·.1.first_event)) x.1.first_event
        rw [hf]
        constructor
        · simpa using hmem
        · intro z hz
          cases List.mem_cons.mp hz with
          | inl h => rw [h]; exact hle
          | inr h => exact hall _ (List.mem_map.mpr ⟨z, h, rfl⟩)
      · have hf : (reduceRankGroup (x :: xs)).purchase_date =
            (xs.map (·.1.purchase_date)).foldl
              (fun acc y => if acc.ord < y.ord then y else acc) x.1.purchase_date := by
          rw [List.foldl_map]
          rfl
        obtain ⟨hmem, hle, hall⟩ :=
          foldl_dmax_spec (xs.map (·.1.purchase_date)) x.1.purchase_date
        rw [hf]
        constructor
        · simpa using hmem
        · intro z hz
          cases List.mem_cons.mp hz with
          | inl h => rw [h]; exact hle
          | inr h => exact hall _ (List.mem_map.mpr ⟨z, h, rfl⟩)
      · rw [List.map_cons, List.flatten_cons]
        rfl

theorem c4_witness :
    ([chSearchDisplay, chEmail] ≠ ([] : List Chain) ∧
     (∀ c ∈ [chSearchDisplay, chEmail], c.customer_id = 7) ∧
     List.Chain' (fun a b : Chain => a.conversion_timestamp ≤ b.conversion_timestamp)
       [chSearchDisplay, chEmail] ∧
     ([chSearchDisplay, chEmail].map (·.conversion_id)).Nodup) ∧
    chain_merge [chSearchDisplay, chEmail] = .ok [mergedSDE] :=
  ⟨⟨by decide, by decide, by rw [List.chain'_pair]; decide, by decide⟩,
    (c4_merge_group_reduction 7 [chSearchDisplay, chEmail]
      (by decide) (by decide) (by rw [List.chain'_pair]; decide) (by decide)).1⟩

theorem chunkBy_cons_head {α : Type} (p : α → α → Bool) :
    ∀ (l : List α) (a : α), ∃ c cs, chunkBy p (a :: l) = (a :: c) :: cs := by
  intro l
  induction l with
  | nil => intro a; exact ⟨[], [], rfl⟩
  | cons b rest ih =>
    intro a
    obtain ⟨c, cs, h⟩ := ih b
    by_cases hp : p a b
    · refine ⟨b :: c, cs, ?_⟩
      simp only [chunkBy]
      rw [h]
      simp [hp]
    · refine ⟨[], (b :: c) :: cs, ?_⟩
      simp only [chunkBy]
      rw [h]
      simp [hp]

theorem chunkBy_keyconst {α β : Type} [DecidableEq β] (k : α → β) :
    ∀ (l : List α), ∀ c ∈ chunkBy (fun a b => k a == k b) l, ∀ x ∈ c, ∀ y ∈ c, k x = k y := by
  intro l
  induction l with
  | nil => simp [chunkBy]
  | cons a as ih =>
    cases as with
    | nil =>
      intro c hc x hx y hy
      simp only [chunkBy, List.mem_singleton] at hc
      subst hc
      simp only [List.mem_singleton] at hx hy
      rw [hx, hy]
    | cons b rest =>
      obtain ⟨c0, cs0, h0⟩ := chunkBy_cons_head (fun a b => k a == k b) rest b
      have hstep : chunkBy (fun a b => k a == k b) (a :: b :: rest) =
          if k a == k b then (a :: b :: c0) :: cs0
          else [a] :: (b :: c0) :: cs0 := by
        simp only [chunkBy]
        rw [h0]
      intro c hc x hx y hy
      rw [hstep] at hc
      by_cases hp : (k a == k b) = true
      · rw [if_pos hp] at hc
        have hkab : k a = k b := by simpa using hp
        cases List.mem_cons.mp hc with
        | inl hceq =>
          subst hceq
          have hconst : ∀ z ∈ b :: c0, k z = k b := by
            intro z hz
            exact ih (b :: c0) (by rw [h0]; simp) z hz b (by simp)
          have hx' : k x = k b := by
            cases List.mem_cons.mp hx with
            | inl h => rw [h, hkab]
            | inr h => exact hconst x h
          have hy' : k y = k b := by
            cases List.mem_cons.mp hy with
            | inl h => rw [h, hkab]
            | inr h => exact hconst y h
          rw [hx', hy']
        | inr hcs =>
          exact ih c (by rw [h0]; simp [hcs]) x hx y hy
      · rw [if_neg hp] at hc
        cases List.mem_cons.mp hc with
        | inl hceq =>
          subst hceq
          simp only [List.mem_singleton] at hx hy
          rw [hx, hy]
        | inr hcs =>
          exact ih c (by rw [h0]; exact hcs) x hx y hy

theorem scanChains_run (r : List Event) (hne : r ≠ [])
    (hconstS : ∀ x ∈ r, ∀ y ∈ r, x.session_id = y.session_id)
    (rest : List Event)
    (hbreak : ∀ e', rest.head? = some e' →
      e'.session_id ≠ (r.headD dfltEvent).session_id) :
    ∀ (acc : List Channel) (fe? : Option Date),
    scanChains acc fe? (r ++ rest) =
      if (r.getLastD dfltEvent).f_purchased then
        closeChain (r.getLastD dfltEvent) (acc ++ r.map (·.channel_group))
          (fe?.getD ((r.headD dfltEvent).first_event_date)) :: scanChains [] none rest
      else scanChains (acc ++ r.map (·.channel_group))
        (some (fe?.getD ((r.headD dfltEvent).first_event_date))) rest := by
  induction r with
  | nil => exact absurd rfl hne
  | cons e r' ih =>
    intro acc fe?
    cases r' with
    | nil =>
      have hbr : sessionBreak e rest = true := by
        cases rest with
        | nil => rfl
        | cons e2 rest' =>
          have := hbreak e2 rfl
          simp only [List.headD_cons] at this
          simp [sessionBreak, this]
      simp only [List.singleton_append, scanChains, hbr, Bool.and_true,
        List.append_eq, List.nil_append, List.getLastD_cons, List.getLastD_nil,
        List.headD_cons, List.map_cons, List.map_nil]
    | cons e2 r'' =>
      have hsame : e2.session_id = e.session_id :=
        hconstS e2 (by simp) e (by simp)
      have hone : scanChains acc fe? ((e :: e2 :: r'') ++ rest) =
          scanChains (acc ++ [e.channel_group])
            (some (fe?.getD e.first_event_date)) ((e2 :: r'') ++ rest) := by
        have hbr : sessionBreak e (e2 :: (r'' ++ rest)) = false := by
          simp [sessionBreak, hsame]
        conv_lhs => rw [List.cons_append, scanChains]
        simp only [List.cons_append, hbr, Bool.and_false]
        simp
      rw [hone]
      have hconstS' : ∀ x ∈ e2 :: r'', ∀ y ∈ e2 :: r'', x.session_id = y.session_id :=
        fun x hx y hy =>
          hconstS x (List.mem_cons_of_mem e hx) y (List.mem_cons_of_mem e hy)
      have hbreak' : ∀ e', rest.head? = some e' →
          e'.session_id ≠ ((e2 :: r'').headD dfltEvent).session_id := by
        intro e' he'
        simp only [List.headD_cons]
        rw [hsame]
        have := hbreak e' he'
        simpa using this
      rw [ih (by simp) hconstS' hbreak' (acc ++ [e.channel_group])
        (some (fe?.getD e.first_event_date))]
      simp only [List.headD_cons, List.getLastD_cons, Option.getD_some]
      by_cases hp : (List.getLastD r'' e2).f_purchased
      · rw [if_pos hp, if_pos hp]
        simp [List.append_assoc]
      · rw [if_neg hp, if_neg hp]
        simp [List.append_assoc]

theorem scanChains_runsList :
    ∀ (runs : List (List Event)),
    (∀ r ∈ runs, r ≠ []) →
    (∀ r ∈ runs, ∀ x ∈ r, ∀ y ∈ r, x.session_id = y.session_id) →
    List.Chain' (fun r1 r2 =>
      (r1.headD dfltEvent).session_id ≠ (r2.headD dfltEvent).session_id) runs →
    ∀ (acc : List Channel) (fe? : Option Date),
    scanChains acc fe? runs.flatten = emitRuns acc fe? runs := by
  intro runs
  induction runs with
  | nil => intro _ _ _ acc fe?; rfl
  | cons r rest ih =>
    intro hnil hconst hchain acc fe?
    have hrne : r ≠ [] := hnil r (by simp)
    have hbreak : ∀ e', (rest.flatten).head? = some e' →
        e'.session_id ≠ (r.headD dfltEvent).session_id := by
      intro e' he'
      cases rest with
      | nil => simp at he'
      | cons r2 rest' =>
        have hr2ne : r2 ≠ [] := hnil r2 (by simp)
        cases r2 with
        | nil => exact absurd rfl hr2ne
        | cons x xs =>
          simp only [List.flatten_cons, List.cons_append, List.head?_cons] at he'
          have hx : x = e' := Option.some.inj he'
          have hadj := (List.chain'_cons.mp hchain).1
          simp only [List.headD_cons] at hadj
          rw [← hx]
          exact Ne.symm hadj
    rw [List.flatten_cons,
      scanChains_run r hrne (hconst r (by simp)) rest.flatten hbreak acc fe?]
    have hnil' : ∀ r2 ∈ rest, r2 ≠ [] := fun r2 h => hnil r2 (by simp [h])
    have hconst' : ∀ r2 ∈ rest, ∀ x ∈ r2, ∀ y ∈ r2, x.session_id = y.session_id :=
      fun r2 h => hconst r2 (by simp [h])
    have hchain' := hchain.tail
    simp only [List.tail_cons] at hchain'
    simp only [emitRuns]
    by_cases hp : (r.getLastD dfltEvent).f_purchased
    · rw [if_pos hp, if_pos hp, ih hnil' hconst' hchain' [] none]
    · rw [if_neg hp, if_neg hp, ih hnil' hconst' hchain']

theorem calcRanks_length (l : List Chain) : (calcRanks l).length = l.length := by
  have h := congrArg List.length (calcRanks_map_fst l)
  rwa [List.length_map] at h

theorem reduce_conv_mem_flatten (L : List (List (Chain × Nat)))
    (g : List (Chain × Nat)) (hg : g ∈ L) (hne : g ≠ []) :
    (reduceRankGroup g).conversion_id ∈ (L.flatten).map (·.1.conversion_id) := by
  obtain ⟨y, hy, hyeq⟩ := List.mem_map.mp (reduce_conv_mem g hne)
  exact List.mem_map.mpr ⟨y, List.mem_flatten.mpr ⟨g, hg, hy⟩, hyeq⟩

/-- `chain_merge` on any input with distinct conversion ids: the assertion
passes, the row count can only decrease, and the output conversion ids stay
distinct. -/
theorem chain_merge_ok_of_nodup (chains : List Chain)
    (hnd : (chains.map (·.conversion_id)).Nodup) :
    chain_merge chains = .ok (mergeCore chains) ∧
    (mergeCore chains).length ≤ chains.length ∧
    ((mergeCore chains).map (·.conversion_id)).Nodup := by
  set sorted := sortByRel mergeSortLe chains with hsorted
  have hnd' : (sorted.map (·.conversion_id)).Nodup :=
    (((sortByRel_perm mergeSortLe chains).map (·.conversion_id)).nodup_iff).mpr hnd
  set L := chunkBy custEq sorted with hL
  have hflat : L.flatten = sorted := chunkBy_join custEq sorted
  have hcore : mergeCore chains =
      (L.map (fun g => (chunkBy rankEq (calcRanks g)).map reduceRankGroup)).flatten := rfl
  have hcr : ∀ g : List Chain, (calcRanks g).map (·.1.conversion_id) =
      g.map (·.conversion_id) := by
    intro g
    have := congrArg (List.map (·.conversion_id)) (calcRanks_map_fst g)
    rwa [List.map_map] at this
  have hsub : ∀ g ∈ L, ∀ v ∈ (((chunkBy rankEq (calcRanks g)).map reduceRankGroup).map
      (·.conversion_id)), v ∈ g.map (·.conversion_id) := by
    intro g _ v hv
    rw [List.map_map] at hv
    obtain ⟨rg, hrg, hrgeq⟩ := List.mem_map.mp hv
    have hrne : rg ≠ [] := chunkBy_ne_nil rankEq (calcRanks g) rg hrg
    have h1 : (reduceRankGroup rg).conversion_id ∈
        ((chunkBy rankEq (calcRanks g)).flatten).map (·.1.conversion_id) :=
      reduce_conv_mem_flatten _ rg hrg hrne
    rw [chunkBy_join, hcr g] at h1
    rw [← hrgeq]
    exact h1
  have hchunknd : ∀ g ∈ L, (g.map (·.conversion_id)).Nodup := by
    intro g hg
    have hsl : g.Sublist sorted := by
      rw [← hflat]
      exact List.sublist_flatten_of_mem hg
    exact (hsl.map (·.conversion_id)).nodup hnd'
  have houtnd : ∀ g ∈ L, ((((chunkBy rankEq (calcRanks g)).map reduceRankGroup)).map
      (·.conversion_id)).Nodup := by
    intro g hg
    have hfl : ((chunkBy rankEq (calcRanks g)).flatten.map (·.1.conversion_id)).Nodup := by
      rw [chunkBy_join, hcr g]
      exact hchunknd g hg
    have := nodup_reduce_convs _ (chunkBy_ne_nil rankEq (calcRanks g)) hfl
    rwa [List.map_map]
  have hdisj : List.Pairwise (fun g1 g2 : List Chain =>
      List.Disjoint (g1.map (·.conversion_id)) (g2.map (·.conversion_id))) L := by
    have h3 : (L.map (List.map (·.conversion_id))).flatten.Nodup := by
      rw [← List.map_flatten, hflat]
      exact hnd'
    exact List.pairwise_map.mp (List.nodup_flatten.mp h3).2
  have hmapping : (mergeCore chains).map (·.conversion_id) =
      (L.map (fun g => (((chunkBy rankEq (calcRanks g)).map reduceRankGroup)).map
        (·.conversion_id))).flatten := by
    rw [hcore, List.map_flatten, List.map_map]
    rfl
  have hnodupout : ((mergeCore chains).map (·.conversion_id)).Nodup := by
    rw [hmapping]
    apply List.nodup_flatten.mpr
    constructor
    · intro l hl
      obtain ⟨g, hg, hgeq⟩ := List.mem_map.mp hl
      rw [← hgeq]
      exact houtnd g hg
    · apply List.pairwise_map.mpr
      apply List.Pairwise.imp_of_mem ?_ hdisj
      intro g1 g2 hg1 hg2 hdis
      intro v hv1 hv2
      exact hdis (hsub g1 hg1 v hv1) (hsub g2 hg2 v hv2)
  have hlen : (mergeCore chains).length ≤ chains.length := by
    rw [hcore, List.length_flatten, List.map_map]
    have hle2 : (L.map (List.length ∘ fun g =>
        (chunkBy rankEq (calcRanks g)).map reduceRankGroup)).sum ≤
        (L.map List.length).sum := by
      apply List.sum_le_sum
      intro g _
      simp only [Function.comp, List.length_map]
      calc (chunkBy rankEq (calcRanks g)).length
          ≤ (calcRanks g).length := chunkBy_length_le _ _
        _ = g.length := calcRanks_length g
    calc (L.map (List.length ∘ fun g =>
          (chunkBy rankEq (calcRanks g)).map reduceRankGroup)).sum
        ≤ (L.map List.length).sum := hle2
      _ = L.flatten.length := (List.length_flatten L).symm
      _ = sorted.length := by rw [hflat]
      _ = chains.length := (sortByRel_perm mergeSortLe chains).length_eq
  refine ⟨?_, hlen, hnodupout⟩
  show (if (mergeCore chains).length =
      ((mergeCore chains).map (·.conversion_id)).dedup.length then
      Except.ok (mergeCore chains)
    else Except.error "ERROR! Found conversions with multiple assigned chains") =
    Except.ok (mergeCore chains)
  rw [List.dedup_eq_self.mpr hnodupout, List.length_map, if_pos rfl]

theorem concatGroup_convs (g : List Chain) :
    (concatGroup g).map (·.conversion_id) = g.map (·.conversion_id) := by
  unfold concatGroup
  rw [List.map_map]
  have h1 : (g.enum.map Prod.snd).map (·.conversion_id) = g.map (·.conversion_id) := by
    rw [List.enum_map_snd]
  rw [← h1, List.map_map]
  rfl

theorem concatGroup_length (g : List Chain) : (concatGroup g).length = g.length := by
  unfold concatGroup
  rw [List.length_map, List.enum_length]

/-- `chain_concatenation` on any input with distinct conversion ids: the
assertion passes, the row count is unchanged, and the conversion ids are a
permutation of the input's. -/
theorem chain_concatenation_ok_of_nodup (chains : List Chain)
    (hnd : (chains.map (·.conversion_id)).Nodup) :
    chain_concatenation chains = .ok (concatCore chains) ∧
    (concatCore chains).length = chains.length ∧
    List.Perm ((concatCore chains).map (·.conversion_id))
      (chains.map (·.conversion_id)) := by
  set sorted := sortByRel concatSortLe chains with hs
  have hperm : List.Perm sorted chains := sortByRel_perm _ _
  set L := chunkBy custEq sorted with hL
  have hflat : L.flatten = sorted := chunkBy_join _ _
  have hcore : concatCore chains = (L.map concatGroup).flatten := rfl
  have hconv : (concatCore chains).map (·.conversion_id) =
      sorted.map (·.conversion_id) := by
    rw [hcore, List.map_flatten, List.map_map]
    have h2 : (L.map ((List.map (·.conversion_id)) ∘ concatGroup)) =
        L.map (List.map (·.conversion_id)) := by
      apply List.map_congr_left
      intro g _
      exact concatGroup_convs g
    rw [h2, ← List.map_flatten, hflat]
  have hpermconv : List.Perm ((concatCore chains).map (·.conversion_id))
      (chains.map (·.conversion_id)) := by
    rw [hconv]
    exact hperm.map _
  have hlen : (concatCore chains).length = chains.length := by
    have h3 := hpermconv.length_eq
    rwa [List.length_map, List.length_map] at h3
  have hnodup : ((concatCore chains).map (·.conversion_id)).Nodup :=
    hpermconv.nodup_iff.mpr hnd
  refine ⟨?_, hlen, hpermconv⟩
  show (if (concatCore chains).length =
      ((concatCore chains).map (·.conversion_id)).dedup.length then
      Except.ok (concatCore chains)
    else Except.error "ERROR! Found conversions with multiple assigned chains") =
    Except.ok (concatCore chains)
  rw [List.dedup_eq_self.mpr hnodup, List.length_map, if_pos rfl]

theorem emitRuns_convs : ∀ (runs : List (List Event)) (acc : List Channel)
    (fe? : Option Date),
    (emitRuns acc fe? runs).map (·.conversion_id) =
      (runs.filter (fun r => (r.getLastD dfltEvent).f_purchased)).map
        (fun r => ((r.getLastD dfltEvent).session_id,
                   (r.getLastD dfltEvent).last_event_date)) := by
  intro runs
  induction runs with
  | nil => intro acc fe?; rfl
  | cons r rest ih =>
    intro acc fe?
    simp only [emitRuns]
    by_cases hp : (r.getLastD dfltEvent).f_purchased
    · rw [if_pos hp, List.filter_cons_of_pos (by simpa using hp),
        List.map_cons, List.map_cons, ih]
      rfl
    · rw [if_neg hp, List.filter_cons_of_neg (by simpa using hp), ih]

theorem getLastD_mem_of_ne {α : Type} (l : List α) (d : α) (h : l ≠ []) :
    l.getLastD d ∈ l := by
  cases l with
  | nil => exact absurd rfl h
  | cons x xs =>
    rw [List.getLastD_cons]
    exact List.getLastD_mem_cons xs x

theorem customer_scan (l : List Event) (hcontig : sessionsContiguous l) :
    scanChains [] none l = emitRuns [] none (sessionRuns l) := by
  have h1 : ∀ r ∈ sessionRuns l, r ≠ [] := chunkBy_ne_nil _ _
  have h2 : ∀ r ∈ sessionRuns l, ∀ x ∈ r, ∀ y ∈ r, x.session_id = y.session_id := by
    intro r hr x hx y hy
    exact chunkBy_keyconst (fun e : Event => e.session_id) l r hr x hx y hy
  have h3 : List.Chain' (fun r1 r2 =>
      (r1.headD dfltEvent).session_id ≠ (r2.headD dfltEvent).session_id)
      (sessionRuns l) := by
    have hnd : List.Pairwise (fun r1 r2 =>
        (r1.headD dfltEvent).session_id ≠ (r2.headD dfltEvent).session_id)
        (sessionRuns l) := List.pairwise_map.mp hcontig
    exact hnd.chain'
  have h4 : (sessionRuns l).flatten = l := chunkBy_join _ _
  calc scanChains [] none l
      = scanChains [] none (sessionRuns l).flatten := by rw [h4]
    _ = emitRuns [] none (sessionRuns l) := scanChains_runsList _ h1 h2 h3 [] none

theorem sessionRuns_flatten (l : List Event) : (sessionRuns l).flatten = l :=
  chunkBy_join _ _

/-- Claim C1: on every Event Table satisfying the session-level input
invariants (each session belongs to one customer, carries one purchase
flag, and is contiguous within its customer's event order), the Chain
Builder's conservation check passes — the number of emitted chains equals
the number of distinct converting sessions and the conversion ids are
unique — and the invariant is maintained downstream: the Merger's check
passes with a row count that can only decrease and ids still unique, and
the Concatenator's check passes with the row count unchanged and the id
multiset untouched.  (On inputs where a check fails each stage returns
`Except.error`, i.e. the run aborts, by definition of the embedded
functions.) -/
theorem c1_conversion_conservation (events : List Event)
    (hsc : ∀ e1 ∈ events, ∀ e2 ∈ events,
      e1.session_id = e2.session_id → e1.customer_id = e2.customer_id)
    (hsp : ∀ e1 ∈ events, ∀ e2 ∈ events,
      e1.session_id = e2.session_id → e1.f_purchased = e2.f_purchased)
    (hcontig : ∀ c ∈ sortedKeys (events.map (·.customer_id)),
      sessionsContiguous (events.filter (·.customer_id == c))) :
    chain_events_concatenation events = .ok (buildChains events) ∧
    (buildChains events).length = (convertingSessions events).dedup.length ∧
    ((buildChains events).map (·.conversion_id)).Nodup ∧
    (chain_merge (buildChains events) = .ok (mergeCore (buildChains events)) ∧
      (mergeCore (buildChains events)).length ≤ (buildChains events).length ∧
      ((mergeCore (buildChains events)).map (·.conversion_id)).Nodup) ∧
    (chain_concatenation (buildChains events) = .ok (concatCore (buildChains events)) ∧
      (concatCore (buildChains events)).length = (buildChains events).length ∧
      List.Perm ((concatCore (buildChains events)).map (·.conversion_id))
        ((buildChains events).map (·.conversion_id))) := by
  set keys := sortedKeys (events.map (·.customer_id)) with hkeys
  set lc : Nat → List Event := fun c => events.filter (·.customer_id == c) with hlcdef
  set pruns : Nat → List (List Event) := fun c =>
    (sessionRuns (lc c)).filter (fun r => (r.getLastD dfltEvent).f_purchased) with hprunsdef
  set sidOf : List Event → Nat := fun r => (r.getLastD dfltEvent).session_id with hsiddef
  set S : List Nat := (keys.map (fun c => (pruns c).map sidOf)).flatten with hS
  have hbuild : buildChains events =
      (keys.map (fun c => emitRuns [] none (sessionRuns (lc c)))).flatten := by
    unfold buildChains
    congr 1
    exact List.map_congr_left (fun c hc => customer_scan _ (hcontig c hc))
  have hconvmap : (buildChains events).map (·.conversion_id) =
      (keys.map (fun c => (pruns c).map (fun r =>
        ((r.getLastD dfltEvent).session_id,
         (r.getLastD dfltEvent).last_event_date)))).flatten := by
    rw [hbuild, List.map_flatten, List.map_map]
    congr 1
    apply List.map_congr_left
    intro c _
    exact emitRuns_convs (sessionRuns (lc c)) [] none
  have hfstmap : ((buildChains events).map (·.conversion_id)).map Prod.fst = S := by
    rw [hconvmap, List.map_flatten, List.map_map]
    congr 1
    apply List.map_congr_left
    intro c _
    show ((pruns c).map (fun r =>
      ((r.getLastD dfltEvent).session_id,
       (r.getLastD dfltEvent).last_event_date))).map Prod.fst = (pruns c).map sidOf
    rw [List.map_map]
    rfl
  have hmemS : ∀ c, ∀ s ∈ (pruns c).map sidOf,
      ∃ e, e ∈ events ∧ e.customer_id = c ∧ e.session_id = s ∧
        e.f_purchased = true := by
    intro c s hs
    obtain ⟨r, hr, hreq⟩ := List.mem_map.mp hs
    have hrruns : r ∈ sessionRuns (lc c) := List.mem_of_mem_filter hr
    have hrpur : (r.getLastD dfltEvent).f_purchased = true := by
      have := (List.mem_filter.mp hr).2
      simpa using this
    have hrne : r ≠ [] := chunkBy_ne_nil _ _ r hrruns
    have hlmem : r.getLastD dfltEvent ∈ r := getLastD_mem_of_ne r dfltEvent hrne
    have hlc : r.getLastD dfltEvent ∈ lc c := by
      have h5 : r.getLastD dfltEvent ∈ (sessionRuns (lc c)).flatten :=
        List.mem_flatten.mpr ⟨r, hrruns, hlmem⟩
      rwa [sessionRuns_flatten] at h5
    have hev : r.getLastD dfltEvent ∈ events := List.mem_of_mem_filter hlc
    have hcust : (r.getLastD dfltEvent).customer_id = c := by
      have := (List.mem_filter.mp hlc).2
      simpa using this
    exact ⟨r.getLastD dfltEvent, hev, hcust, by rw [← hreq], hrpur⟩
  have hndc : ∀ c ∈ keys, ((pruns c).map sidOf).Nodup := by
    intro c hc
    have hcont := hcontig c hc
    have heq : (pruns c).map sidOf =
        (pruns c).map (fun r => (r.headD dfltEvent).session_id) := by
      apply List.map_congr_left
      intro r hr
      have hrruns : r ∈ sessionRuns (lc c) := List.mem_of_mem_filter hr
      have hrne : r ≠ [] := chunkBy_ne_nil _ _ r hrruns
      have hlmem := getLastD_mem_of_ne r dfltEvent hrne
      have hhmem : r.headD dfltEvent ∈ r := by
        cases r with
        | nil => exact absurd rfl hrne
        | cons x xs => simp
      exact chunkBy_keyconst (fun e : Event => e.session_id) (lc c) r hrruns
        _ hlmem _ hhmem
    rw [heq]
    have hsub : ((pruns c).map (fun r => (r.headD dfltEvent).session_id)).Sublist
        ((sessionRuns (lc c)).map (fun r => (r.headD dfltEvent).session_id)) :=
      (List.filter_sublist _).map _
    exact hsub.nodup hcont
  have hSnd : S.Nodup := by
    rw [hS]
    apply List.nodup_flatten.mpr
    constructor
    · intro l hl
      obtain ⟨c, hc, hceq⟩ := List.mem_map.mp hl
      rw [← hceq]
      exact hndc c hc
    · apply List.pairwise_map.mpr
      have hknd : keys.Nodup := by
        have hdd : (events.map (·.customer_id)).dedup.Nodup := List.nodup_dedup _
        exact ((sortByRel_perm _ _).nodup_iff).mpr hdd
      refine hknd.imp ?_
      intro c1 c2 hne12
      intro s hs1 hs2
      obtain ⟨e1, he1, hc1, hs1', _⟩ := hmemS c1 s hs1
      obtain ⟨e2, he2, hc2, hs2', _⟩ := hmemS c2 s hs2
      exact hne12 (by rw [← hc1, ← hc2]
                      exact hsc e1 he1 e2 he2 (by rw [hs1', hs2']))
  have hmemiff : ∀ s, s ∈ S ↔ s ∈ convertingSessions events := by
    intro s
    constructor
    · intro hsS
      rw [hS] at hsS
      obtain ⟨l, hl, hsl⟩ := List.mem_flatten.mp hsS
      obtain ⟨c, _, hceq⟩ := List.mem_map.mp hl
      rw [← hceq] at hsl
      obtain ⟨e, he, _, hsess, hpur⟩ := hmemS c s hsl
      unfold convertingSessions
      exact List.mem_map.mpr ⟨e, List.mem_filter.mpr ⟨he, by simpa using hpur⟩, hsess⟩
    · intro hsC
      unfold convertingSessions at hsC
      obtain ⟨e, hef, hseq⟩ := List.mem_map.mp hsC
      have he : e ∈ events := List.mem_of_mem_filter hef
      have hep : e.f_purchased = true := by
        have := (List.mem_filter.mp hef).2
        simpa using this
      have hckeys : e.customer_id ∈ keys := by
        rw [hkeys]
        unfold sortedKeys
        rw [(sortByRel_perm _ _).mem_iff, List.mem_dedup]
        exact List.mem_map.mpr ⟨e, he, rfl⟩
      have helc : e ∈ lc e.customer_id := List.mem_filter.mpr ⟨he, by simp⟩
      have hfl : e ∈ (sessionRuns (lc e.customer_id)).flatten := by
        rw [sessionRuns_flatten]
        exact helc
      obtain ⟨r, hrruns, her⟩ := List.mem_flatten.mp hfl
      have hrne : r ≠ [] := chunkBy_ne_nil _ _ r hrruns
      have hlmem := getLastD_mem_of_ne r dfltEvent hrne
      have hsesseq : (r.getLastD dfltEvent).session_id = e.session_id :=
        chunkBy_keyconst (fun e : Event => e.session_id) (lc e.customer_id) r hrruns
          _ hlmem e her
      have hlev : r.getLastD dfltEvent ∈ events := by
        have hl1 : r.getLastD dfltEvent ∈ lc e.customer_id := by
          have h6 := List.mem_flatten.mpr ⟨r, hrruns, hlmem⟩
          rwa [sessionRuns_flatten] at h6
        exact List.mem_of_mem_filter hl1
      have hlpur : (r.getLastD dfltEvent).f_purchased = true := by
        rw [hsp _ hlev e he hsesseq]
        exact hep
      have hrp : r ∈ pruns e.customer_id :=
        List.mem_filter.mpr ⟨hrruns, by simpa using hlpur⟩
      rw [hS]
      apply List.mem_flatten.mpr
      refine ⟨(pruns e.customer_id).map sidOf,
        List.mem_map.mpr ⟨e.customer_id, hckeys, rfl⟩, ?_⟩
      refine List.mem_map.mpr ⟨r, hrp, ?_⟩
      show (r.getLastD dfltEvent).session_id = s
      rw [hsesseq, hseq]
  have hpermS : List.Perm S (convertingSessions events).dedup := by
    apply (List.perm_ext_iff_of_nodup hSnd (List.nodup_dedup _)).mpr
    intro a
    rw [List.mem_dedup]
    exact hmemiff a
  have hblen : (buildChains events).length = S.length := by
    have h7 := congrArg List.length hfstmap
    rwa [List.length_map, List.length_map] at h7
  have hlen2 : (buildChains events).length = (convertingSessions events).dedup.length := by
    rw [hblen, hpermS.length_eq]
  have hbnd : ((buildChains events).map (·.conversion_id)).Nodup := by
    apply List.Nodup.of_map Prod.fst
    rw [hfstmap]
    exact hSnd
  have hok : chain_events_concatenation events = .ok (buildChains events) := by
    show (if (convertingSessions events).dedup.length = (buildChains events).length ∧
        (buildChains events).length =
          ((buildChains events).map (·.conversion_id)).dedup.length then
        Except.ok (buildChains events)
      else Except.error "ERROR! Found conversions with multiple assigned chains") =
      Except.ok (buildChains events)
    rw [if_pos ⟨hlen2.symm, by rw [List.dedup_eq_self.mpr hbnd, List.length_map]⟩]
  obtain ⟨hmok, hmlen, hmnd⟩ := chain_merge_ok_of_nodup (buildChains events) hbnd
  obtain ⟨hcok, hclen, hcperm⟩ := chain_concatenation_ok_of_nodup (buildChains events) hbnd
  exact ⟨hok, hlen2, hbnd, ⟨hmok, hmlen, hmnd⟩, ⟨hcok, hclen, hcperm⟩⟩

theorem c1_witness :
    ((∀ e1 ∈ exC2Events, ∀ e2 ∈ exC2Events,
        e1.session_id = e2.session_id → e1.customer_id = e2.customer_id) ∧
     (∀ e1 ∈ exC2Events, ∀ e2 ∈ exC2Events,
        e1.session_id = e2.session_id → e1.f_purchased = e2.f_purchased) ∧
     (∀ c ∈ sortedKeys (exC2Events.map (·.customer_id)),
        sessionsContiguous (exC2Events.filter (·.customer_id == c)))) ∧
    (chain_events_concatenation exC2Events = .ok (buildChains exC2Events) ∧
     (buildChains exC2Events).length = (convertingSessions exC2Events).dedup.length ∧
     ((buildChains exC2Events).map (·.conversion_id)).Nodup ∧
     (chain_merge (buildChains exC2Events) = .ok (mergeCore (buildChains exC2Events)) ∧
       (mergeCore (buildChains exC2Events)).length ≤ (buildChains exC2Events).length ∧
       ((mergeCore (buildChains exC2Events)).map (·.conversion_id)).Nodup) ∧
     (chain_concatenation (buildChains exC2Events) =
        .ok (concatCore (buildChains exC2Events)) ∧
       (concatCore (buildChains exC2Events)).length = (buildChains exC2Events).length ∧
       List.Perm ((concatCore (buildChains exC2Events)).map (·.conversion_id))
         ((buildChains exC2Events).map (·.conversion_id)))) :=
  ⟨⟨by decide, by decide, by decide⟩,
    c1_conversion_conservation exC2Events (by decide) (by decide) (by decide)⟩
